import Mathlib

/-!
Shallow embedding of the custom game-assignment handlers documented in
`custom-game-assignment-guide.md`.  Games, players and batches are records of
the attributes the handlers read and write; each `Empirica.on("player", ...)`
handler becomes a state-transformer on an explicit `EState`.
-/

/-- The immutable treatment snapshot of a game; only `playerCount` (the
declared capacity) is read by the assignment code. -/
structure Treatment where
  playerCount : Nat
deriving Repr, DecidableEq

/-- A game scope: its id, the `hasEnded` / `hasStarted` flags, the treatment,
the member list `players` (participant ids, in assignment order), and the
attributes `requiredSkillLevel` and `batchID` read by strategy 3 and the
replay handler. -/
structure Game where
  id : String
  hasEnded : Bool := false
  hasStarted : Bool := false
  treatment : Treatment
  players : List String := []
  requiredSkillLevel : Option String := none
  batchID : String := ""
deriving Repr, DecidableEq

/-- A player scope with the attributes the handlers read and write
(`gameID`, `skillLevel`, `surveyComplete`, `termsAgreed`, `waitingReason`,
`requestReplay`, `replayError`, `ended`, `skillRating`).  `none` models a
`null` / unset attribute. -/
structure Player where
  id : String
  gameID : Option String := none
  skillLevel : Option String := none
  surveyComplete : Bool := false
  termsAgreed : Bool := false
  waitingReason : Option String := none
  requestReplay : Bool := false
  replayError : Option String := none
  ended : Option String := none
  skillRating : Option Int := none
deriving Repr, DecidableEq

/-- A batch scope; only its id and `status` attribute are read. -/
structure Batch where
  id : String
  status : String
deriving Repr, DecidableEq

/-- The slice of server state visible to the handlers: the scopes returned by
`ctx.scopesByKind("game" | "player" | "batch")`, each list in scope-creation
order. -/
structure EState where
  games : List Game
  players : List Player
  batches : List Batch
deriving Repr, DecidableEq

/-- Look up the player scope with the given id. -/
def findPlayer (st : EState) (pid : String) : Option Player :=
  st.players.find? (fun p => p.id == pid)

/-- Apply `f` to the player scope with the given id (models `player.set`). -/
def updatePlayer (st : EState) (pid : String) (f : Player → Player) : EState :=
  { st with players := st.players.map (fun p => if p.id == pid then f p else p) }

/-- The per-game effect of `game.assignPlayer(player)` on a game scope:
the player is removed from any previous game's member list and appended to
the target game (the game whose id is `gid`). -/
def assignG (gid pid : String) (g : Game) : Game :=
  if g.id == gid then
    { g with players := g.players.filter (fun q => !(q == pid)) ++ [pid] }
  else
    { g with players := g.players.filter (fun q => !(q == pid)) }

/-- `game.assignPlayer(player)` (guide, API Reference): removes the player
from any previous game's member list, appends it to the target game's member
list, and sets the player's `gameID` attribute to the target game's id.
(The `treatment` / `treatmentName` attribute copies are not modelled: no
handler reads them back.) -/
def assignPlayer (st : EState) (gid pid : String) : EState :=
  { st with
    games := st.games.map (assignG gid pid),
    players := st.players.map
      (fun p => if p.id == pid then { p with gameID := some gid } else p) }

/-- The open-game filter used by every strategy:
`!g.get("hasEnded") && !g.get("hasStarted")`. -/
def openPred (g : Game) : Bool := !g.hasEnded && !g.hasStarted

/-- Spare-capacity test: `game.players.length < game.get("treatment").playerCount`. -/
def sparePred (g : Game) : Bool := g.players.length < g.treatment.playerCount

/-- The `availableGames` filter of the basic-setup handler:
`!hasEnded && !hasStarted && treatment.playerCount > players.length`. -/
def availableGames (gs : List Game) : List Game :=
  gs.filter (fun g => !g.hasEnded && !g.hasStarted && sparePred g)

/-- Lexicographic order on character lists, comparing code points. -/
def lexLe : List Char → List Char → Bool
  | [], _ => true
  | _ :: _, [] => false
  | a :: as, b :: bs =>
    if a.toNat < b.toNat then true
    else if b.toNat < a.toNat then false
    else lexLe as bs

/-- Lexicographic string order on code points, the model of the
`a.id.localeCompare(b.id)` comparator. -/
def strLe (a b : String) : Bool := lexLe a.data b.data

/-- Insert a game into a list sorted by id (lexicographic string order). -/
def insertById (g : Game) : List Game → List Game
  | [] => [g]
  | h :: t => if strLe g.id h.id then g :: h :: t else h :: insertById g t

/-- Stable insertion sort by game id, modelling
`.sort((a, b) => a.id.localeCompare(b.id))`. -/
def sortById (gs : List Game) : List Game := gs.foldr insertById []

/-- The selection made by Strategy 1 (Fill Games Sequentially): skip if the
player already has a `gameID`; otherwise sort the open games by id and return
the id of the first one with spare capacity, or `none` to defer. -/
def select1 (p : Player) (games : List Game) : Option String :=
  if p.gameID.isSome then none
  else ((sortById (games.filter openPred)).find? sparePred).map (fun g => g.id)

/-- The Strategy 1 handler: `Empirica.on("player", ...)` with sequential fill. -/
def strategy1 (st : EState) (pid : String) : EState :=
  match findPlayer st pid with
  | none => st
  | some p =>
    match select1 p st.games with
    | some gid => assignPlayer st gid pid
    | none => st

/-- Minimum of a list of naturals (`Math.min(...games.map(g => g.players.length))`;
the empty case is never relevant because the caller guards on a non-empty list). -/
def minOcc : List Nat → Nat
  | [] => 0
  | [n] => n
  | n :: m :: t => min n (minOcc (m :: t))

/-- The games of minimum occupancy among the open games
(`games.filter(g => g.players.length === minPlayerCount)`). -/
def underassignedOf (games : List Game) : List Game :=
  (games.filter openPred).filter
    (fun g => g.players.length ==
      minOcc ((games.filter openPred).map (fun h => h.players.length)))

/-- The selection made by Strategy 2 (Random Assignment with Balancing).
The random draw `Math.floor(Math.random() * underassignedGames.length)` is
modelled by the explicit parameter `r`, reduced mod the candidate count, so
that every admissible index is a possible draw.  With no open game the JS
code gets `Math.min() = Infinity`, an empty candidate list and an undefined
target (no assignment); here the out-of-range lookup returns `none`. -/
def select2 (p : Player) (games : List Game) (r : Nat) : Option String :=
  if p.gameID.isSome then none
  else ((underassignedOf games)[r % (underassignedOf games).length]?).map (fun g => g.id)

/-- The Strategy 2 handler, parameterised by the random draw `r`. -/
def strategy2 (st : EState) (pid : String) (r : Nat) : EState :=
  match findPlayer st pid with
  | none => st
  | some p =>
    match select2 p st.games r with
    | some gid => assignPlayer st gid pid
    | none => st

/-- The selection made by Strategy 3 (Attribute-Based Matching): among the
open games whose `requiredSkillLevel` equals the player's `skillLevel`,
return the first (in scope order) with spare capacity. -/
def select3 (p : Player) (games : List Game) : Option String :=
  if p.gameID.isSome then none
  else
    (((games.filter openPred).filter
        (fun g => g.requiredSkillLevel == p.skillLevel)).find? sparePred).map
      (fun g => g.id)

/-- The Strategy 3 handler. -/
def strategy3 (st : EState) (pid : String) : EState :=
  match findPlayer st pid with
  | none => st
  | some p =>
    match select3 p st.games with
    | some gid => assignPlayer st gid pid
    | none => st

/-- The waiting-reason message written by Strategy 4. -/
def waitingMsg : String := "Please complete the survey and agree to terms"

/-- The error message written by the replay handler when no game fits. -/
def replayMsg : String := "No games available for replay"

/-- The Strategy 4 handler (Conditional Assignment with Waiting Pool):
if entry conditions are unmet, set `waitingReason` and stop; otherwise assign
to the first open game with spare capacity and clear `waitingReason`; if no
game has spare capacity, do nothing. -/
def strategy4 (st : EState) (pid : String) : EState :=
  match findPlayer st pid with
  | none => st
  | some p =>
    if p.gameID.isSome then st
    else if !p.surveyComplete || !p.termsAgreed then
      updatePlayer st pid (fun q => { q with waitingReason := some waitingMsg })
    else
      match (st.games.filter openPred).find? sparePred with
      | some g =>
        updatePlayer (assignPlayer st g.id pid) pid (fun q => { q with waitingReason := none })
      | none => st

/-- The selection made by Strategy 4 (the game assigned, if any), factored
out of `strategy4`'s branch structure: skip if the player already has a
`gameID` or the entry conditions (`surveyComplete`, `termsAgreed`) are
unmet, otherwise the first open game with spare capacity.  The theorem for
claim C7 ties this selection back to the handler: `strategy4` assigns the
participant exactly when `select4` returns a game, and to that game. -/
def select4 (p : Player) (games : List Game) : Option String :=
  if p.gameID.isSome then none
  else if !p.surveyComplete || !p.termsAgreed then none
  else ((games.filter openPred).find? sparePred).map (fun g => g.id)

/-- The inner loop of the replay handler: the first non-ended game of the
batch with spare capacity. -/
def replayFindInBatch (games : List Game) (b : Batch) : Option Game :=
  (games.filter (fun g => g.batchID == b.id && !g.hasEnded)).find? sparePred

/-- The nested batch/game loops of the replay handler: first fitting game of
the first running batch that has one. -/
def replayFind (games : List Game) : List Batch → Option Game
  | [] => none
  | b :: bs =>
    match replayFindInBatch games b with
    | some g => some g
    | none => replayFind games bs

/-- The `Empirica.on("player", "requestReplay", ...)` handler (Use Case 1):
return unless `requestReplay`; clear `gameID` and `ended`; scan the running
batches for a non-ended game with spare capacity; on success assign and reset
`requestReplay`; otherwise set `replayError` and reset `requestReplay`. -/
def replayHandler (st : EState) (pid : String) : EState :=
  match findPlayer st pid with
  | none => st
  | some p =>
    if !p.requestReplay then st
    else
      let st0 := updatePlayer st pid (fun q => { q with gameID := none, ended := none })
      match replayFind st0.games (st0.batches.filter (fun b => b.status == "running")) with
      | some g =>
        updatePlayer (assignPlayer st0 g.id pid) pid (fun q => { q with requestReplay := false })
      | none =>
        updatePlayer st0 pid
          (fun q => { q with replayError := some replayMsg, requestReplay := false })

/-- Sort key of the skill-matchmaking sort: `p.get("skillRating")`
(every pool member has a non-null rating; `getD 0` is never hit there). -/
def ratingOf (p : Player) : Int := p.skillRating.getD 0

/-- Insert a player into a list sorted by ascending skill rating. -/
def insertByRating (p : Player) : List Player → List Player
  | [] => [p]
  | h :: t => if ratingOf p ≤ ratingOf h then p :: h :: t else h :: insertByRating p t

/-- Stable insertion sort by ascending skill rating, modelling
`.sort((a, b) => a.get("skillRating") - b.get("skillRating"))`. -/
def sortByRating (ps : List Player) : List Player := ps.foldr insertByRating []

/-- The waiting-pool filter of the matchmaking handler: unassigned, rated,
not ended. -/
def poolPred (p : Player) : Bool := p.gameID.isNone && p.skillRating.isSome && p.ended.isNone

/-- The required group size of the matchmaking example
(`const requiredPlayers = 4`). -/
def requiredPlayers : Nat := 4

/-- Partition a list into consecutive slices of `requiredPlayers = 4`
(`allPlayers.slice(i, i + requiredPlayers)` for `i = 0, 4, 8, ...`);
only the last slice can be shorter.  Written by direct pattern matching so
that the recursion is structural. -/
def brackets : List Player → List (List Player)
  | [] => []
  | [a] => [[a]]
  | [a, b] => [[a, b]]
  | [a, b, c] => [[a, b, c]]
  | a :: b :: c :: d :: rest => [a, b, c, d] :: brackets rest

/-- Concatenation of the ids of a list of games. -/
def joinIds (gs : List Game) : String := gs.foldr (fun g acc => g.id ++ acc) ""

/-- A game id distinct from every id already in `gs` (it is strictly longer
than each of them).  `batch.addGame` returns a game scope with a fresh id
generated by the framework; the generator itself is outside this repository,
so freshness is the one property modelled. -/
def freshId (gs : List Game) : String := joinIds gs ++ "!"

/-- The game scope created by `batch.addGame` in the matchmaking handler:
treatment `{ playerCount: requiredPlayers }`, empty member list, belonging to
the batch.  (The `averageSkillRating` attribute it also sets is read by no
handler and is not modelled.) -/
def newSkillGame (gs : List Game) (bid : String) : Game :=
  { id := freshId gs, treatment := { playerCount := requiredPlayers }, batchID := bid }

/-- `for (const p of bracket) await game.assignPlayer(p)`. -/
def assignBracket (st : EState) (gid : String) : List Player → EState
  | [] => st
  | p :: rest => assignBracket (assignPlayer st gid p.id) gid rest

/-- The `for (const bracket of brackets)` loop: skip incomplete brackets;
for each complete bracket create one game in the batch and assign every
bracket member to it. -/
def processBrackets (st : EState) (bid : String) : List (List Player) → EState
  | [] => st
  | b :: bs =>
    if b.length < requiredPlayers then processBrackets st bid bs
    else
      let g := newSkillGame st.games bid
      processBrackets (assignBracket { st with games := st.games ++ [g] } g.id b) bid bs

/-- The `Empirica.on("player", "skillRating", ...)` matchmaking handler
(Use Case 4): skip if the triggering player is assigned or has a falsy
rating; sort the unassigned rated players by rating, partition into brackets
of `requiredPlayers`, and, if a running batch exists, create one game per
complete bracket and assign its members. -/
def skillHandler (st : EState) (pid : String) : EState :=
  match findPlayer st pid with
  | none => st
  | some p =>
    if p.gameID.isSome then st
    else
      match p.skillRating with
      | none => st
      | some r =>
        if r == 0 then st  -- JS falsy check `if (!playerRating) return`
        else
          let allPlayers := sortByRating (st.players.filter poolPred)
          if allPlayers.length < requiredPlayers then st
          else
            match st.batches.filter (fun b => b.status == "running") with
            | [] => st
            | batch :: _ => processBrackets st batch.id (brackets allPlayers)

/-- Capacity invariant: no game's member count exceeds its declared
`treatment.playerCount`. -/
def CapOK (st : EState) : Prop :=
  ∀ g ∈ st.games, g.players.length ≤ g.treatment.playerCount

/-- Game ids are pairwise distinct. -/
def NodupIds (st : EState) : Prop := (st.games.map (fun g => g.id)).Nodup

/-- Player ids are pairwise distinct. -/
def NodupPids (st : EState) : Prop := (st.players.map (fun p => p.id)).Nodup

/-- No participant id occurs in both member lists. -/
def MembersDisjoint (g1 g2 : Game) : Prop := ∀ q ∈ g1.players, q ∉ g2.players

/-- At-most-one-active-assignment: the member lists of the non-ended games
are pairwise disjoint, so a participant id occurs in at most one of them. -/
def AtMostOneActive (st : EState) : Prop :=
  (st.games.filter (fun g => !g.hasEnded)).Pairwise MembersDisjoint

/-- A player whose `gameID` attribute is null is a member of no game. -/
def AttrConsistent (st : EState) : Prop :=
  ∀ p ∈ st.players, p.gameID = none → ∀ g ∈ st.games, p.id ∉ g.players

/-- Occupancies of the open games stay within one of each other. -/
def BalancedOcc (st : EState) : Prop :=
  ∀ g1 ∈ st.games, ∀ g2 ∈ st.games, openPred g1 → openPred g2 →
    g1.players.length ≤ g2.players.length + 1

instance (st : EState) : Decidable (CapOK st) := by
  unfold CapOK; infer_instance

instance (st : EState) : Decidable (NodupIds st) := by
  unfold NodupIds; infer_instance

instance (st : EState) : Decidable (NodupPids st) := by
  unfold NodupPids; infer_instance

instance (g1 g2 : Game) : Decidable (MembersDisjoint g1 g2) := by
  unfold MembersDisjoint; infer_instance

instance (st : EState) : Decidable (AtMostOneActive st) := by
  unfold AtMostOneActive; infer_instance

instance (st : EState) : Decidable (AttrConsistent st) := by
  unfold AttrConsistent; infer_instance

instance (st : EState) : Decidable (BalancedOcc st) := by
  unfold BalancedOcc; infer_instance

/-- One invocation of any of the assignment handlers. -/
inductive Step : EState → EState → Prop
  | seqFill (st : EState) (pid : String) : Step st (strategy1 st pid)
  | randBal (st : EState) (pid : String) (r : Nat) : Step st (strategy2 st pid r)
  | attrMatch (st : EState) (pid : String) : Step st (strategy3 st pid)
  | condPool (st : EState) (pid : String) : Step st (strategy4 st pid)
  | replay (st : EState) (pid : String) : Step st (replayHandler st pid)
  | skill (st : EState) (pid : String) : Step st (skillHandler st pid)

/-- One invocation of a handler that tests `occupancy < capacity` before
calling `assignPlayer` (every handler except Strategy 2). -/
inductive CheckedStep : EState → EState → Prop
  | seqFill (st : EState) (pid : String) : CheckedStep st (strategy1 st pid)
  | attrMatch (st : EState) (pid : String) : CheckedStep st (strategy3 st pid)
  | condPool (st : EState) (pid : String) : CheckedStep st (strategy4 st pid)
  | replay (st : EState) (pid : String) : CheckedStep st (replayHandler st pid)
  | skill (st : EState) (pid : String) : CheckedStep st (skillHandler st pid)

/-- One invocation of the Strategy 2 handler. -/
inductive RandStep : EState → EState → Prop
  | mk (st : EState) (pid : String) (r : Nat) : RandStep st (strategy2 st pid r)

/-- Concrete state refuting the waiting-reason part of the deferral claim:
entry conditions met, one open game with no spare capacity. -/
def c9CSt : EState :=
  ⟨[{ id := "g1", treatment := ⟨1⟩, players := ["x"] }],
   [{ id := "p", surveyComplete := true, termsAgreed := true }], []⟩

/-- Concrete state for the entry-conditions-unmet branch of Strategy 4. -/
def c9WSt : EState := ⟨[], [{ id := "p" }], []⟩

/-- Concrete state for a successful replay reassignment. -/
def c10WSt : EState :=
  ⟨[{ id := "g1", treatment := ⟨2⟩, batchID := "b1" }],
   [{ id := "p", requestReplay := true }],
   [⟨"b1", "running"⟩]⟩

/-- State for the Sequential Fill witness: the later-created full game has
the smaller id position irrelevant; `g1` is first in id order and has room. -/
def c3WSt : EState :=
  ⟨[{ id := "g2", treatment := ⟨2⟩, players := ["x", "y"] },
    { id := "g1", treatment := ⟨3⟩ }],
   [{ id := "p" }], []⟩

/-- State for the Attribute Match witness: the `"novice"` game is created
first (earlier in scope order), the `"expert"` game later; the expert
participant must land in the later `"expert"` game. -/
def c5WSt : EState :=
  ⟨[{ id := "g1", treatment := ⟨3⟩, requiredSkillLevel := some "novice" },
    { id := "g2", treatment := ⟨3⟩, requiredSkillLevel := some "expert" }],
   [{ id := "p", skillLevel := some "expert" }], []⟩

/-- Two equally empty open games: the minimum-occupancy candidate set for
Strategy 2 has two members, so different random draws pick different games. -/
def c7Games : List Game :=
  [{ id := "a", treatment := ⟨2⟩ }, { id := "b", treatment := ⟨2⟩ }]

/-- An ended game never gains a member: every member of an ended game after
a transition was already a member of an ended game with the same id
before it. -/
def EndedNoGain (st st' : EState) : Prop :=
  ∀ g' ∈ st'.games, g'.hasEnded = true → ∀ q ∈ g'.players,
    ∃ g ∈ st.games, g.id = g'.id ∧ g.hasEnded = true ∧ q ∈ g.players

/-- Modelled from the spec's words, for comparison with `availableGames`:
"the current visible set of open sessions (those in state forming or running
with unmet capacity)" — every non-ended session with spare capacity. -/
def specOpenSessions (gs : List Game) : List Game :=
  gs.filter (fun g => !g.hasEnded && sparePred g)

/-- A running (started, not ended) game with spare capacity. -/
def c8Game : Game :=
  { id := "g1", hasStarted := true, treatment := ⟨2⟩, players := ["x"] }

/-- State for the C8 witness: an ended game holding `"x"` and an open game;
a Sequential Fill step must not touch the ended game's member list. -/
def c8WSt : EState :=
  ⟨[{ id := "g0", hasEnded := true, treatment := ⟨2⟩, players := ["x"] },
    { id := "g1", treatment := ⟨2⟩ }],
   [{ id := "p" }], []⟩

/-- State for the C1 counterexample: one open game already at capacity. -/
def c1CSt : EState :=
  ⟨[{ id := "g1", treatment := ⟨1⟩, players := ["a"] }], [{ id := "b" }], []⟩

/-- State for the C1 witness: an open game with one free slot. -/
def c1WSt : EState :=
  ⟨[{ id := "g1", treatment := ⟨2⟩, players := ["x"] }], [{ id := "p" }], []⟩

/-- State for the C2 witness: one open game holding `"x"`, one ended game
holding `"y"`, and an arriving unassigned participant. -/
def c2WSt : EState :=
  ⟨[{ id := "g1", treatment := ⟨2⟩, players := ["x"] },
    { id := "g2", hasEnded := true, treatment := ⟨2⟩, players := ["y"] }],
   [{ id := "p" }], []⟩

/-- State for the C4 witness: two open capacity-2 games with occupancies
1 and 0; a Strategy 2 arrival must go to the emptier one, keeping the
spread within 1. -/
def c4WSt : EState :=
  ⟨[{ id := "g1", treatment := ⟨2⟩, players := ["x"] },
    { id := "g2", treatment := ⟨2⟩ }],
   [{ id := "p" }], []⟩

/-- State for the C6 witness: five unassigned rated players and a running
batch; the four lowest-rated players form one complete bracket and get one
new game, the fifth stays deferred. -/
def c6WSt : EState :=
  ⟨[],
   [{ id := "p1", skillRating := some 5 },
    { id := "p2", skillRating := some 3 },
    { id := "p3", skillRating := some 9 },
    { id := "p4", skillRating := some 1 },
    { id := "p5", skillRating := some 7 }],
   [⟨"b1", "running"⟩]⟩

section Helpers

@[simp]
theorem assignG_id (gid pid : String) (g : Game) : (assignG gid pid g).id = g.id := by
  unfold assignG; split <;> rfl

@[simp]
theorem assignG_hasEnded (gid pid : String) (g : Game) :
    (assignG gid pid g).hasEnded = g.hasEnded := by
  unfold assignG; split <;> rfl

@[simp]
theorem assignG_hasStarted (gid pid : String) (g : Game) :
    (assignG gid pid g).hasStarted = g.hasStarted := by
  unfold assignG; split <;> rfl

@[simp]
theorem assignG_treatment (gid pid : String) (g : Game) :
    (assignG gid pid g).treatment = g.treatment := by
  unfold assignG; split <;> rfl

@[simp]
theorem assignPlayer_games (st : EState) (gid pid : String) :
    (assignPlayer st gid pid).games = st.games.map (assignG gid pid) := rfl

@[simp]
theorem assignPlayer_batches (st : EState) (gid pid : String) :
    (assignPlayer st gid pid).batches = st.batches := rfl

@[simp]
theorem updatePlayer_games (st : EState) (pid : String) (f : Player → Player) :
    (updatePlayer st pid f).games = st.games := rfl

@[simp]
theorem updatePlayer_batches (st : EState) (pid : String) (f : Player → Player) :
    (updatePlayer st pid f).batches = st.batches := rfl

theorem find?_map_pres {α : Type} (f : α → α) (p : α → Bool)
    (hp : ∀ x, p (f x) = p x) (l : List α) :
    (l.map f).find? p = (l.find? p).map f := by
  induction l with
  | nil => rfl
  | cons a t ih =>
    cases h : p a with
    | false =>
      rw [List.map_cons, List.find?_cons_of_neg _ (by simp [hp, h]),
        List.find?_cons_of_neg _ (by simp [h]), ih]
    | true =>
      rw [List.map_cons, List.find?_cons_of_pos _ (by simp [hp, h]),
        List.find?_cons_of_pos _ h]
      rfl

theorem findPlayer_updatePlayer (st : EState) (pid qid : String) (f : Player → Player)
    (hf : ∀ q, (f q).id = q.id) :
    findPlayer (updatePlayer st pid f) qid =
      (findPlayer st qid).map (fun q => if q.id == pid then f q else q) := by
  unfold findPlayer updatePlayer
  exact find?_map_pres _ _
    (fun x => by by_cases hx : (x.id == pid) = true <;> simp [hx, hf]) _

theorem findPlayer_assignPlayer (st : EState) (gid pid qid : String) :
    findPlayer (assignPlayer st gid pid) qid =
      (findPlayer st qid).map
        (fun q => if q.id == pid then { q with gameID := some gid } else q) := by
  unfold findPlayer assignPlayer
  exact find?_map_pres _ _
    (fun x => by by_cases hx : (x.id == pid) = true <;> simp [hx]) _

theorem findPlayer_id (st : EState) (pid : String) (p : Player)
    (hp : findPlayer st pid = some p) : p.id = pid := by
  have := List.find?_some hp
  exact eq_of_beq this

theorem findPlayer_mem (st : EState) (pid : String) (p : Player)
    (hp : findPlayer st pid = some p) : p ∈ st.players :=
  List.mem_of_find?_eq_some hp

theorem findPlayer_updatePlayer_self (st : EState) (pid : String) (p : Player)
    (f : Player → Player) (hf : ∀ q, (f q).id = q.id)
    (hp : findPlayer st pid = some p) :
    findPlayer (updatePlayer st pid f) pid = some (f p) := by
  rw [findPlayer_updatePlayer st pid pid f hf, hp]
  simp [findPlayer_id st pid p hp]

theorem findPlayer_updatePlayer_ne (st : EState) (pid qid : String)
    (f : Player → Player) (hf : ∀ q, (f q).id = q.id) (hne : qid ≠ pid) :
    findPlayer (updatePlayer st pid f) qid = findPlayer st qid := by
  rw [findPlayer_updatePlayer st pid qid f hf]
  cases hq : findPlayer st qid with
  | none => rfl
  | some q =>
    have hid := findPlayer_id st qid q hq
    simp [hid, hne]

theorem findPlayer_assignPlayer_self (st : EState) (gid pid : String) (p : Player)
    (hp : findPlayer st pid = some p) :
    findPlayer (assignPlayer st gid pid) pid = some { p with gameID := some gid } := by
  rw [findPlayer_assignPlayer, hp]
  simp [findPlayer_id st pid p hp]

theorem findPlayer_assignPlayer_ne (st : EState) (gid pid qid : String) (hne : qid ≠ pid) :
    findPlayer (assignPlayer st gid pid) qid = findPlayer st qid := by
  rw [findPlayer_assignPlayer]
  cases hq : findPlayer st qid with
  | none => rfl
  | some q =>
    have hid := findPlayer_id st qid q hq
    simp [hid, hne]

end Helpers

section ClaimC9

/-- C9, counterexample: in `c9CSt` the participant meets the entry
conditions, the only open game is full, so the participant is deferred; but
the handler leaves the state entirely unchanged, so the `waitingReason`
attribute is NOT set (it stays null), contradicting the claim that every
deferral sets it. -/
theorem strategy4_defer_no_reason_counterexample :
    strategy4 c9CSt "p" = c9CSt ∧
    (∃ p, findPlayer c9CSt "p" = some p ∧ p.gameID = none ∧
      p.surveyComplete = true ∧ p.termsAgreed = true ∧ p.waitingReason = none) ∧
    (∃ g ∈ c9CSt.games, openPred g ∧ ¬ sparePred g) ∧
    (∀ p', findPlayer (strategy4 c9CSt "p") "p" = some p' →
      p'.gameID = none ∧ p'.waitingReason = none) := by
  decide

/-- C9 (amended): when the entry conditions are unmet, Strategy 4 sets only
the participant's `waitingReason` attribute (games, batches and all other
players unchanged, `gameID` still null); when the conditions are met but no
open game has spare capacity, the handler leaves the state entirely
unchanged (in particular `waitingReason` is not written); on a successful
assignment the `waitingReason` attribute is cleared. -/
theorem strategy4_deferral_frame (st : EState) (pid : String) (p : Player)
    (hp : findPlayer st pid = some p) (hg : p.gameID = none) :
    ((p.surveyComplete = false ∨ p.termsAgreed = false) →
      (strategy4 st pid).games = st.games ∧
      (strategy4 st pid).batches = st.batches ∧
      findPlayer (strategy4 st pid) pid =
        some { p with waitingReason := some waitingMsg } ∧
      (∀ qid, qid ≠ pid → findPlayer (strategy4 st pid) qid = findPlayer st qid)) ∧
    ((p.surveyComplete = true ∧ p.termsAgreed = true ∧
        ∀ g ∈ st.games, openPred g → ¬ sparePred g) →
      strategy4 st pid = st) ∧
    (∀ g, p.surveyComplete = true → p.termsAgreed = true →
      (st.games.filter openPred).find? sparePred = some g →
      ∃ p', findPlayer (strategy4 st pid) pid = some p' ∧
        p'.waitingReason = none ∧ p'.gameID = some g.id) := by
  have hsome : p.gameID.isSome = false := by rw [hg]; rfl
  refine ⟨?_, ?_, ?_⟩
  · intro hcond
    have hb : (!p.surveyComplete || !p.termsAgreed) = true := by
      rcases hcond with h | h <;> simp [h]
    have hres : strategy4 st pid =
        updatePlayer st pid (fun q => { q with waitingReason := some waitingMsg }) := by
      unfold strategy4
      rw [hp]
      simp [hsome, hb]
    refine ⟨by rw [hres]; rfl, by rw [hres]; rfl, ?_, ?_⟩
    · rw [hres]
      exact findPlayer_updatePlayer_self st pid p
        (fun q => { q with waitingReason := some waitingMsg }) (fun q => rfl) hp
    · intro qid hne
      rw [hres]
      exact findPlayer_updatePlayer_ne st pid qid
        (fun q => { q with waitingReason := some waitingMsg }) (fun q => rfl) hne
  · rintro ⟨hs, ht, hnone⟩
    have hb : (!p.surveyComplete || !p.termsAgreed) = false := by simp [hs, ht]
    have hfind : (st.games.filter openPred).find? sparePred = none := by
      rw [List.find?_eq_none]
      intro g hgmem
      have := List.mem_filter.mp hgmem
      exact by simpa using hnone g this.1 this.2
    unfold strategy4
    rw [hp]
    simp [hsome, hb, hfind]
  · intro g hs ht hfind
    have hb : (!p.surveyComplete || !p.termsAgreed) = false := by simp [hs, ht]
    have hres : strategy4 st pid =
        updatePlayer (assignPlayer st g.id pid) pid
          (fun q => { q with waitingReason := none }) := by
      unfold strategy4
      rw [hp]
      simp [hsome, hb, hfind]
    refine ⟨{ p with gameID := some g.id, waitingReason := none }, ?_, rfl, rfl⟩
    rw [hres]
    exact findPlayer_updatePlayer_self _ pid _
      (fun q => { q with waitingReason := none }) (fun q => rfl)
      (findPlayer_assignPlayer_self st g.id pid p hp)

/-- Witness for `strategy4_deferral_frame`: in `c9WSt` the entry conditions
are unmet and the handler records the waiting reason. -/
theorem strategy4_deferral_frame_witness :
    findPlayer (strategy4 c9WSt "p") "p" =
      some { id := "p", waitingReason := some waitingMsg } :=
  (((strategy4_deferral_frame c9WSt "p" { id := "p" } (by decide) rfl).1)
    (Or.inl rfl)).2.2.1

end ClaimC9

section ClaimC10

theorem replayFindInBatch_some (games : List Game) (b : Batch) (g : Game)
    (h : replayFindInBatch games b = some g) :
    g ∈ games ∧ g.batchID = b.id ∧ g.hasEnded = false ∧ sparePred g := by
  have hpred := List.find?_some h
  have hmem := List.mem_of_find?_eq_some h
  have hmem' := List.mem_filter.mp hmem
  have hflags : (g.batchID == b.id && !g.hasEnded) = true := hmem'.2
  simp only [Bool.and_eq_true, beq_iff_eq, Bool.not_eq_true'] at hflags
  exact ⟨hmem'.1, hflags.1, hflags.2, hpred⟩

theorem replayFind_some (games : List Game) :
    ∀ (bs : List Batch) (g : Game), replayFind games bs = some g →
      g ∈ games ∧ g.hasEnded = false ∧ sparePred g ∧ ∃ b ∈ bs, g.batchID = b.id := by
  intro bs
  induction bs with
  | nil => intro g h; cases h
  | cons b rest ih =>
    intro g h
    unfold replayFind at h
    cases hb : replayFindInBatch games b with
    | some g0 =>
      rw [hb] at h
      injection h with h'
      subst h'
      obtain ⟨h1, h2, h3, h4⟩ := replayFindInBatch_some games b _ hb
      exact ⟨h1, h3, h4, b, List.mem_cons_self b rest, h2⟩
    | none =>
      rw [hb] at h
      obtain ⟨h1, h2, h3, b', hb', h4⟩ := ih g h
      exact ⟨h1, h2, h3, b', List.mem_cons_of_mem b hb', h4⟩

theorem replayHandler_noop (st : EState) (pid : String) (p : Player)
    (hp : findPlayer st pid = some p) (hr : p.requestReplay = false) :
    replayHandler st pid = st := by
  unfold replayHandler
  rw [hp]
  simp [hr]

/-- C10: a run of the replay handler with `requestReplay` true either assigns
the participant to a non-ended game with spare capacity in a running batch,
or records `replayError`; in both cases `requestReplay` is reset to false,
so an unchanged re-run of the handler is a no-op. -/
theorem replayHandler_terminates (st : EState) (pid : String) (p : Player)
    (hp : findPlayer st pid = some p) (hr : p.requestReplay = true) :
    (∃ p', findPlayer (replayHandler st pid) pid = some p' ∧
      p'.requestReplay = false ∧
      ((∃ g ∈ st.games, g.hasEnded = false ∧ sparePred g ∧
          (∃ b ∈ st.batches, b.status = "running" ∧ g.batchID = b.id) ∧
          p'.gameID = some g.id) ∨
        (p'.replayError = some replayMsg ∧ p'.gameID = none))) ∧
    replayHandler (replayHandler st pid) pid = replayHandler st pid := by
  have hkey : replayHandler st pid =
      match replayFind st.games (st.batches.filter (fun b => b.status == "running")) with
      | some g =>
        updatePlayer
          (assignPlayer (updatePlayer st pid (fun q => { q with gameID := none, ended := none }))
            g.id pid)
          pid (fun q => { q with requestReplay := false })
      | none =>
        updatePlayer (updatePlayer st pid (fun q => { q with gameID := none, ended := none }))
          pid (fun q => { q with replayError := some replayMsg, requestReplay := false }) := by
    unfold replayHandler
    rw [hp]
    simp [hr]
  have hp0 : findPlayer (updatePlayer st pid (fun q => { q with gameID := none, ended := none }))
      pid = some { p with gameID := none, ended := none } :=
    findPlayer_updatePlayer_self st pid p _ (fun q => rfl) hp
  cases hfind : replayFind st.games (st.batches.filter (fun b => b.status == "running")) with
  | some g =>
    rw [hfind] at hkey
    obtain ⟨hmem, hend, hsp, b, hbmem, hbid⟩ :=
      replayFind_some st.games _ g hfind
    have hbmem' := List.mem_filter.mp hbmem
    have hbrun : b.status = "running" := by simpa using hbmem'.2
    have hfound : findPlayer (replayHandler st pid) pid =
        some { p with gameID := some g.id, ended := none, requestReplay := false } := by
      rw [hkey]
      exact findPlayer_updatePlayer_self _ pid _
        (fun q => { q with requestReplay := false }) (fun q => rfl)
        (findPlayer_assignPlayer_self _ g.id pid _ hp0)
    refine ⟨⟨_, hfound, rfl, Or.inl ⟨g, hmem, hend, hsp, ⟨b, hbmem'.1, hbrun, hbid⟩, rfl⟩⟩, ?_⟩
    exact replayHandler_noop _ pid _ hfound rfl
  | none =>
    rw [hfind] at hkey
    have hfound : findPlayer (replayHandler st pid) pid =
        some { p with gameID := none, ended := none, replayError := some replayMsg,
                      requestReplay := false } := by
      rw [hkey]
      exact findPlayer_updatePlayer_self _ pid _
        (fun q => { q with replayError := some replayMsg, requestReplay := false })
        (fun q => rfl) hp0
    refine ⟨⟨_, hfound, rfl, Or.inr ⟨rfl, rfl⟩⟩, ?_⟩
    exact replayHandler_noop _ pid _ hfound rfl

/-- Witness for `replayHandler_terminates`: in `c10WSt` the request succeeds
and the flag is lowered. -/
theorem replayHandler_terminates_witness :
    (∃ p', findPlayer (replayHandler c10WSt "p") "p" = some p' ∧
      p'.requestReplay = false ∧
      ((∃ g ∈ c10WSt.games, g.hasEnded = false ∧ sparePred g ∧
          (∃ b ∈ c10WSt.batches, b.status = "running" ∧ g.batchID = b.id) ∧
          p'.gameID = some g.id) ∨
        (p'.replayError = some replayMsg ∧ p'.gameID = none))) ∧
    replayHandler (replayHandler c10WSt "p") "p" = replayHandler c10WSt "p" :=
  replayHandler_terminates c10WSt "p" { id := "p", requestReplay := true }
    (by decide) rfl

end ClaimC10

section SortLemmas

theorem lexLe_refl : ∀ a : List Char, lexLe a a = true := by
  intro a
  induction a with
  | nil => rfl
  | cons x xs ih => simp [lexLe, ih]

theorem lexLe_total : ∀ a b : List Char, lexLe a b = true ∨ lexLe b a = true := by
  intro a
  induction a with
  | nil => intro b; left; rfl
  | cons x xs ih =>
    intro b
    cases b with
    | nil => right; rfl
    | cons y ys =>
      rcases Nat.lt_trichotomy x.toNat y.toNat with h | h | h
      · left; simp [lexLe, h]
      · have h1 : ¬ x.toNat < y.toNat := by omega
        have h2 : ¬ y.toNat < x.toNat := by omega
        rcases ih ys with h' | h'
        · left; simp [lexLe, h1, h2, h']
        · right; simp [lexLe, h1, h2, h']
      · right; simp [lexLe, h]

theorem lexLe_head {y z : Char} {ys zs : List Char}
    (h : lexLe (y :: ys) (z :: zs) = true) : y.toNat ≤ z.toNat := by
  by_cases h1 : y.toNat < z.toNat
  · omega
  · by_cases h2 : z.toNat < y.toNat
    · simp [lexLe, h1, h2] at h
    · omega

theorem lexLe_trans : ∀ a b c : List Char,
    lexLe a b = true → lexLe b c = true → lexLe a c = true := by
  intro a
  induction a with
  | nil => intro b c h1 h2; rfl
  | cons x xs ih =>
    intro b c h1 h2
    cases b with
    | nil => simp [lexLe] at h1
    | cons y ys =>
      cases c with
      | nil => simp [lexLe] at h2
      | cons z zs =>
        have hxy := lexLe_head h1
        have hyz := lexLe_head h2
        by_cases hxz : x.toNat < z.toNat
        · simp [lexLe, hxz]
        · have hx : x.toNat = y.toNat := by omega
          have hy : y.toNat = z.toNat := by omega
          have h1' : lexLe xs ys = true := by
            simp [lexLe, hx, Nat.lt_irrefl] at h1
            exact h1
          have h2' : lexLe ys zs = true := by
            simp [lexLe, hy, Nat.lt_irrefl] at h2
            exact h2
          have hzx : ¬ z.toNat < x.toNat := by omega
          simp [lexLe, hxz, hzx, ih ys zs h1' h2']

theorem strLe_refl (a : String) : strLe a a = true := lexLe_refl a.data

theorem strLe_total (a b : String) : strLe a b = true ∨ strLe b a = true :=
  lexLe_total a.data b.data

theorem strLe_trans {a b c : String} (h1 : strLe a b = true) (h2 : strLe b c = true) :
    strLe a c = true := lexLe_trans a.data b.data c.data h1 h2

theorem insertById_perm (g : Game) :
    ∀ l : List Game, (insertById g l).Perm (g :: l) := by
  intro l
  induction l with
  | nil => exact List.Perm.refl _
  | cons h t ih =>
    unfold insertById
    split
    · exact List.Perm.refl _
    · exact (List.Perm.cons h ih).trans (List.Perm.swap g h t)

theorem sortById_perm (gs : List Game) : (sortById gs).Perm gs := by
  induction gs with
  | nil => exact List.Perm.refl _
  | cons g t ih =>
    have : sortById (g :: t) = insertById g (sortById t) := rfl
    rw [this]
    exact (insertById_perm g (sortById t)).trans (List.Perm.cons g ih)

theorem mem_sortById {g : Game} {gs : List Game} : g ∈ sortById gs ↔ g ∈ gs :=
  (sortById_perm gs).mem_iff

theorem insertById_pairwise (g : Game) :
    ∀ l : List Game, l.Pairwise (fun a b => strLe a.id b.id = true) →
      (insertById g l).Pairwise (fun a b => strLe a.id b.id = true) := by
  intro l
  induction l with
  | nil => intro _; simp [insertById]
  | cons h t ih =>
    intro hp
    rw [List.pairwise_cons] at hp
    unfold insertById
    split
    · rename_i hle
      rw [List.pairwise_cons]
      refine ⟨?_, List.pairwise_cons.mpr hp⟩
      intro x hx
      rcases List.mem_cons.mp hx with rfl | hx'
      · exact hle
      · exact strLe_trans hle (hp.1 x hx')
    · rename_i hgt
      rw [List.pairwise_cons]
      refine ⟨?_, ih hp.2⟩
      intro x hx
      have hx' : x ∈ g :: t := (insertById_perm g t).mem_iff.mp hx
      rcases List.mem_cons.mp hx' with rfl | hx''
      · rcases strLe_total x.id h.id with hc | hc
        · exact absurd hc hgt
        · exact hc
      · exact hp.1 x hx''

theorem sortById_pairwise (gs : List Game) :
    (sortById gs).Pairwise (fun a b => strLe a.id b.id = true) := by
  induction gs with
  | nil => exact List.Pairwise.nil
  | cons g t ih => exact insertById_pairwise g (sortById t) ih

theorem find?_pairwise_min {α : Type} (R : α → α → Prop) (p : α → Bool)
    (hrefl : ∀ a, R a a) :
    ∀ l : List α, l.Pairwise R → ∀ g, l.find? p = some g →
      ∀ x ∈ l, p x = true → R g x := by
  intro l
  induction l with
  | nil => intro _ g hg; cases hg
  | cons a t ih =>
    intro hp g hg x hx hpx
    rw [List.pairwise_cons] at hp
    cases ha : p a with
    | true =>
      rw [List.find?_cons_of_pos _ ha] at hg
      injection hg with hg'
      subst hg'
      rcases List.mem_cons.mp hx with rfl | hx'
      · exact hrefl _
      · exact hp.1 x hx'
    | false =>
      rw [List.find?_cons_of_neg _ (by simp [ha])] at hg
      rcases List.mem_cons.mp hx with rfl | hx'
      · rw [hpx] at ha; cases ha
      · exact ih hp.2 g hg x hx' hpx

theorem find?_split {α : Type} (p : α → Bool) :
    ∀ (l : List α) (a : α), l.find? p = some a →
      ∃ l1 l2, l = l1 ++ a :: l2 ∧ (∀ x ∈ l1, p x = false) ∧ p a = true := by
  intro l
  induction l with
  | nil => intro a ha; cases ha
  | cons b t ih =>
    intro a ha
    cases hb : p b with
    | true =>
      rw [List.find?_cons_of_pos _ hb] at ha
      injection ha with ha'
      subst ha'
      refine ⟨[], t, rfl, ?_, hb⟩
      intro x hx
      cases hx
    | false =>
      rw [List.find?_cons_of_neg _ (by simp [hb])] at ha
      obtain ⟨l1, l2, heq, hall, hpa⟩ := ih a ha
      refine ⟨b :: l1, l2, by rw [heq]; rfl, ?_, hpa⟩
      intro x hx
      rcases List.mem_cons.mp hx with rfl | hx'
      · exact hb
      · exact hall x hx'

end SortLemmas

section HandlerChar

theorem strategy1_char (st : EState) (pid : String) (p : Player)
    (hp : findPlayer st pid = some p) :
    strategy1 st pid =
      match select1 p st.games with
      | some gid => assignPlayer st gid pid
      | none => st := by
  unfold strategy1
  rw [hp]

theorem strategy2_char (st : EState) (pid : String) (r : Nat) (p : Player)
    (hp : findPlayer st pid = some p) :
    strategy2 st pid r =
      match select2 p st.games r with
      | some gid => assignPlayer st gid pid
      | none => st := by
  unfold strategy2
  rw [hp]

theorem strategy3_char (st : EState) (pid : String) (p : Player)
    (hp : findPlayer st pid = some p) :
    strategy3 st pid =
      match select3 p st.games with
      | some gid => assignPlayer st gid pid
      | none => st := by
  unfold strategy3
  rw [hp]

end HandlerChar

section ClaimC3

/-- C3: Strategy 1 orders the open games deterministically by id (the
guide's proxy for creation order) and assigns the unassigned participant to
the first one with spare capacity; when no open game has spare capacity the
handler leaves the state unchanged (the participant is deferred). -/
theorem strategy1_sequential_fill (st : EState) (pid : String) (p : Player)
    (hp : findPlayer st pid = some p) (hg : p.gameID = none) :
    ((∀ g ∈ st.games, openPred g = true → sparePred g = false) →
      strategy1 st pid = st) ∧
    ((∃ g ∈ st.games, openPred g = true ∧ sparePred g = true) →
      ∃ g ∈ st.games, openPred g = true ∧ sparePred g = true ∧
        (∀ g' ∈ st.games, openPred g' = true → sparePred g' = true →
          strLe g.id g'.id = true) ∧
        strategy1 st pid = assignPlayer st g.id pid ∧
        findPlayer (strategy1 st pid) pid = some { p with gameID := some g.id }) := by
  have hsome : p.gameID.isSome = false := by rw [hg]; rfl
  have hsel : select1 p st.games =
      ((sortById (st.games.filter openPred)).find? sparePred).map (fun g => g.id) := by
    unfold select1
    simp [hsome]
  constructor
  · intro hnone
    have hfind : (sortById (st.games.filter openPred)).find? sparePred = none := by
      rw [List.find?_eq_none]
      intro g hgmem
      have hgf := mem_sortById.mp hgmem
      have hgf' := List.mem_filter.mp hgf
      simp [hnone g hgf'.1 hgf'.2]
    rw [strategy1_char st pid p hp, hsel, hfind]
    rfl
  · rintro ⟨g0, hg0m, hg0o, hg0s⟩
    have hg0sorted : g0 ∈ sortById (st.games.filter openPred) :=
      mem_sortById.mpr (List.mem_filter.mpr ⟨hg0m, hg0o⟩)
    have hs : ((sortById (st.games.filter openPred)).find? sparePred).isSome := by
      rw [List.find?_isSome]
      exact ⟨g0, hg0sorted, hg0s⟩
    obtain ⟨g, hfind⟩ := Option.isSome_iff_exists.mp hs
    have hgmem := List.mem_of_find?_eq_some hfind
    have hgfilter := List.mem_filter.mp (mem_sortById.mp hgmem)
    have hspare := List.find?_some hfind
    have hmin : ∀ g' ∈ st.games, openPred g' = true → sparePred g' = true →
        strLe g.id g'.id = true := by
      intro g' hm ho hsp
      exact find?_pairwise_min (fun a b => strLe a.id b.id = true) sparePred
        (fun a => strLe_refl a.id) _ (sortById_pairwise _) g hfind g'
        (mem_sortById.mpr (List.mem_filter.mpr ⟨hm, ho⟩)) hsp
    have hstep : strategy1 st pid = assignPlayer st g.id pid := by
      rw [strategy1_char st pid p hp, hsel, hfind]
      rfl
    refine ⟨g, hgfilter.1, hgfilter.2, hspare, hmin, hstep, ?_⟩
    rw [hstep]
    exact findPlayer_assignPlayer_self st g.id pid p hp

/-- Witness for `strategy1_sequential_fill`: in `c3WSt` the participant goes
to `g1`, the id-least open game with spare capacity. -/
theorem strategy1_sequential_fill_witness :
    ∃ g ∈ c3WSt.games, openPred g = true ∧ sparePred g = true ∧
      (∀ g' ∈ c3WSt.games, openPred g' = true → sparePred g' = true →
        strLe g.id g'.id = true) ∧
      strategy1 c3WSt "p" = assignPlayer c3WSt g.id "p" ∧
      findPlayer (strategy1 c3WSt "p") "p" =
        some { ({ id := "p" } : Player) with gameID := some g.id } :=
  (strategy1_sequential_fill c3WSt "p" { id := "p" } (by decide) rfl).2
    ⟨{ id := "g1", treatment := ⟨3⟩ }, by decide, by decide, by decide⟩

end ClaimC3

section ClaimC5

/-- C5: Strategy 3 considers only open games whose `requiredSkillLevel`
equals the participant's `skillLevel`; among the matches it assigns the
first (in scope/creation order) with spare capacity — the matching list
splits as `l1 ++ g :: l2` with every game of `l1` full; if no game matches
or all matches are full the participant is deferred (state unchanged). -/
theorem strategy3_attribute_match (st : EState) (pid : String) (p : Player)
    (hp : findPlayer st pid = some p) (hg : p.gameID = none) :
    ((∀ g ∈ st.games, openPred g = true → g.requiredSkillLevel = p.skillLevel →
        sparePred g = false) →
      strategy3 st pid = st) ∧
    ((∃ g ∈ st.games, openPred g = true ∧ g.requiredSkillLevel = p.skillLevel ∧
        sparePred g = true) →
      ∃ g l1 l2, g ∈ st.games ∧ openPred g = true ∧
        g.requiredSkillLevel = p.skillLevel ∧ sparePred g = true ∧
        (st.games.filter openPred).filter
            (fun h => h.requiredSkillLevel == p.skillLevel) = l1 ++ g :: l2 ∧
        (∀ x ∈ l1, sparePred x = false) ∧
        strategy3 st pid = assignPlayer st g.id pid ∧
        findPlayer (strategy3 st pid) pid = some { p with gameID := some g.id }) := by
  have hsome : p.gameID.isSome = false := by rw [hg]; rfl
  have hsel : select3 p st.games =
      (((st.games.filter openPred).filter
          (fun g => g.requiredSkillLevel == p.skillLevel)).find? sparePred).map
        (fun g => g.id) := by
    unfold select3
    simp [hsome]
  constructor
  · intro hnone
    have hfind : ((st.games.filter openPred).filter
        (fun g => g.requiredSkillLevel == p.skillLevel)).find? sparePred = none := by
      rw [List.find?_eq_none]
      intro g hgmem
      have h1 := List.mem_filter.mp hgmem
      have h2 := List.mem_filter.mp h1.1
      have hreq : g.requiredSkillLevel = p.skillLevel := by
        have := h1.2
        simpa using this
      simp [hnone g h2.1 h2.2 hreq]
    rw [strategy3_char st pid p hp, hsel, hfind]
    rfl
  · rintro ⟨g0, hg0m, hg0o, hg0r, hg0s⟩
    have hg0l : g0 ∈ (st.games.filter openPred).filter
        (fun g => g.requiredSkillLevel == p.skillLevel) :=
      List.mem_filter.mpr ⟨List.mem_filter.mpr ⟨hg0m, hg0o⟩, by simp [hg0r]⟩
    have hs : (((st.games.filter openPred).filter
        (fun g => g.requiredSkillLevel == p.skillLevel)).find? sparePred).isSome := by
      rw [List.find?_isSome]
      exact ⟨g0, hg0l, hg0s⟩
    obtain ⟨g, hfind⟩ := Option.isSome_iff_exists.mp hs
    have hgmem := List.mem_of_find?_eq_some hfind
    have h1 := List.mem_filter.mp hgmem
    have h2 := List.mem_filter.mp h1.1
    have hreq : g.requiredSkillLevel = p.skillLevel := by
      have := h1.2
      simpa using this
    have hspare := List.find?_some hfind
    obtain ⟨l1, l2, hsplit, hl1, -⟩ := find?_split sparePred _ g hfind
    have hstep : strategy3 st pid = assignPlayer st g.id pid := by
      rw [strategy3_char st pid p hp, hsel, hfind]
      rfl
    refine ⟨g, l1, l2, h2.1, h2.2, hreq, hspare, hsplit, hl1, hstep, ?_⟩
    rw [hstep]
    exact findPlayer_assignPlayer_self st g.id pid p hp

/-- Witness for `strategy3_attribute_match`: the expert participant in
`c5WSt` is assigned to the `"expert"` game created after the `"novice"`
one. -/
theorem strategy3_attribute_match_witness :
    ∃ g l1 l2, g ∈ c5WSt.games ∧ openPred g = true ∧
      g.requiredSkillLevel = ({ id := "p", skillLevel := some "expert" } : Player).skillLevel ∧
      sparePred g = true ∧
      (c5WSt.games.filter openPred).filter
          (fun h => h.requiredSkillLevel ==
            ({ id := "p", skillLevel := some "expert" } : Player).skillLevel) = l1 ++ g :: l2 ∧
      (∀ x ∈ l1, sparePred x = false) ∧
      strategy3 c5WSt "p" = assignPlayer c5WSt g.id "p" ∧
      findPlayer (strategy3 c5WSt "p") "p" =
        some { ({ id := "p", skillLevel := some "expert" } : Player) with
               gameID := some g.id } :=
  (strategy3_attribute_match c5WSt "p" { id := "p", skillLevel := some "expert" }
      (by decide) rfl).2
    ⟨{ id := "g2", treatment := ⟨3⟩, requiredSkillLevel := some "expert" },
      by decide, by decide, by decide, by decide⟩

end ClaimC5

section ClaimC7

theorem select1_assigned (p : Player) (gs : List Game)
    (h : p.gameID.isSome = true) : select1 p gs = none := by
  unfold select1
  simp [h]

theorem select2_assigned (p : Player) (gs : List Game) (r : Nat)
    (h : p.gameID.isSome = true) : select2 p gs r = none := by
  unfold select2
  simp [h]

theorem select3_assigned (p : Player) (gs : List Game)
    (h : p.gameID.isSome = true) : select3 p gs = none := by
  unfold select3
  simp [h]

theorem strategy4_assigned (st : EState) (pid : String) (p : Player)
    (hp : findPlayer st pid = some p) (hgid : p.gameID.isSome = true) :
    strategy4 st pid = st := by
  unfold strategy4
  rw [hp]
  simp [hgid]

theorem strategy4_waiting (st : EState) (pid : String) (p : Player)
    (hp : findPlayer st pid = some p) (hgid : p.gameID.isSome = false)
    (hb : (!p.surveyComplete || !p.termsAgreed) = true) :
    strategy4 st pid =
      updatePlayer st pid (fun w => { w with waitingReason := some waitingMsg }) := by
  unfold strategy4
  rw [hp]
  simp [hgid, hb]

theorem strategy4_met_some (st : EState) (pid : String) (p : Player) (g : Game)
    (hp : findPlayer st pid = some p) (hgid : p.gameID.isSome = false)
    (hb : (!p.surveyComplete || !p.termsAgreed) = false)
    (hfind : (st.games.filter openPred).find? sparePred = some g) :
    strategy4 st pid =
      updatePlayer (assignPlayer st g.id pid) pid
        (fun w => { w with waitingReason := none }) := by
  unfold strategy4
  rw [hp]
  simp [hgid, hb, hfind]

theorem strategy4_met_none (st : EState) (pid : String) (p : Player)
    (hp : findPlayer st pid = some p) (hgid : p.gameID.isSome = false)
    (hb : (!p.surveyComplete || !p.termsAgreed) = false)
    (hfind : (st.games.filter openPred).find? sparePred = none) :
    strategy4 st pid = st := by
  unfold strategy4
  rw [hp]
  simp [hgid, hb, hfind]

theorem map_update_idem (pid : String) (f : Player → Player)
    (hid : ∀ w, (f w).id = w.id) (hff : ∀ w, f (f w) = f w) :
    ∀ l : List Player,
      (l.map (fun w => if w.id == pid then f w else w)).map
          (fun w => if w.id == pid then f w else w) =
        l.map (fun w => if w.id == pid then f w else w) := by
  intro l
  induction l with
  | nil => rfl
  | cons a t ih =>
    simp only [List.map_cons]
    by_cases h : (a.id == pid) = true
    · simp only [if_pos h]
      rw [if_pos (show ((f a).id == pid) = true by rw [hid]; exact h), hff, ih]
    · simp only [if_neg h]
      rw [ih]

theorem updatePlayer_idem (st : EState) (pid : String) (f : Player → Player)
    (hid : ∀ w, (f w).id = w.id) (hff : ∀ w, f (f w) = f w) :
    updatePlayer (updatePlayer st pid f) pid f = updatePlayer st pid f := by
  show ({ games := st.games,
          players := (st.players.map (fun w => if w.id == pid then f w else w)).map
            (fun w => if w.id == pid then f w else w),
          batches := st.batches } : EState) =
    { games := st.games,
      players := st.players.map (fun w => if w.id == pid then f w else w),
      batches := st.batches }
  rw [map_update_idem pid f hid hff st.players]

/-- C7, counterexample: the Strategy 2 selection is not a function of the
participant and the open-session list alone — on identical inputs, random
draw 0 picks game `"a"` while draw 1 picks game `"b"` (the code consults
`Math.random()`, hidden state outside the declared inputs). -/
theorem select2_random_counterexample :
    select2 { id := "p" } c7Games 0 = some "a" ∧
    select2 { id := "p" } c7Games 1 = some "b" ∧
    select2 { id := "p" } c7Games 0 ≠ select2 { id := "p" } c7Games 1 := by
  decide

theorem minOcc_le : ∀ l : List Nat, ∀ x ∈ l, minOcc l ≤ x := by
  intro l
  induction l with
  | nil => intro x hx; cases hx
  | cons n t ih =>
    intro x hx
    cases t with
    | nil =>
      rcases List.mem_cons.mp hx with rfl | hx'
      · exact Nat.le_refl x
      · cases hx'
    | cons m t' =>
      rcases List.mem_cons.mp hx with rfl | hx'
      · exact Nat.min_le_left _ _
      · exact Nat.le_trans (Nat.min_le_right _ _) (ih x hx')

theorem minOcc_mem : ∀ l : List Nat, l ≠ [] → minOcc l ∈ l := by
  intro l
  induction l with
  | nil => intro h; exact absurd rfl h
  | cons n t ih =>
    intro _
    cases t with
    | nil => exact List.mem_singleton.mpr rfl
    | cons m t' =>
      have : minOcc (n :: m :: t') = min n (minOcc (m :: t')) := rfl
      rw [this]
      rcases Nat.le_total n (minOcc (m :: t')) with h | h
      · rw [Nat.min_eq_left h]; exact List.mem_cons_self _ _
      · rw [Nat.min_eq_right h]
        exact List.mem_cons_of_mem _ (ih (by simp))

theorem underassignedOf_ne_nil (games : List Game)
    (h : games.filter openPred ≠ []) : underassignedOf games ≠ [] := by
  unfold underassignedOf
  intro hcon
  have hmem := minOcc_mem ((games.filter openPred).map (fun h => h.players.length))
    (by simpa using h)
  rw [List.mem_map] at hmem
  obtain ⟨g, hg, hlen⟩ := hmem
  have : g ∈ (games.filter openPred).filter
      (fun g => g.players.length ==
        minOcc ((games.filter openPred).map (fun h => h.players.length))) :=
    List.mem_filter.mpr ⟨hg, by simp [hlen]⟩
  rw [hcon] at this
  cases this

theorem select2_none_all (p : Player) (gs : List Game) (r1 r2 : Nat)
    (h : select2 p gs r1 = none) : select2 p gs r2 = none := by
  unfold select2 at h ⊢
  by_cases hg : p.gameID.isSome = true
  · simp [hg]
  · rw [if_neg hg] at h ⊢
    cases hua : underassignedOf gs with
    | nil => simp [hua]
    | cons a t =>
      exfalso
      have hne : underassignedOf gs ≠ [] := by rw [hua]; simp
      have hlt : r1 % (underassignedOf gs).length < (underassignedOf gs).length :=
        Nat.mod_lt _ (List.length_pos.mpr hne)
      rw [List.getElem?_eq_getElem hlt] at h
      simp at h

/-- C7 (amended): the selections of Strategies 1, 3 and 4 are pure functions
of the participant's relevant attributes and the open-session list (no
hidden state) — `select4` is tied back to the Strategy 4 handler by the
characterization conjunct: `strategy4` assigns exactly when `select4`
returns a game, and to that game — and every strategy handler (1, 2, 3
and 4) is retry-safe: re-running it on its own output changes nothing,
because after a successful assignment the `gameID` short-circuit fires, a
deferral leaves the state unchanged, and Strategy 4's waiting-pool write is
idempotent.  Strategy 2's selection additionally depends on the random draw
(see the counterexample), yet its handler is still retry-safe for any pair
of draws. -/
theorem strategy_purity_retry (st : EState) (pid : String) (r1 r2 : Nat)
    (p q : Player) (gs : List Game) :
    (p.gameID = q.gameID → select1 p gs = select1 q gs) ∧
    (p.gameID = q.gameID → p.skillLevel = q.skillLevel →
      select3 p gs = select3 q gs) ∧
    (p.gameID = q.gameID → p.surveyComplete = q.surveyComplete →
      p.termsAgreed = q.termsAgreed → select4 p gs = select4 q gs) ∧
    (∀ p0, findPlayer st pid = some p0 →
      strategy4 st pid =
        match select4 p0 st.games with
        | some gid =>
          updatePlayer (assignPlayer st gid pid) pid
            (fun w => { w with waitingReason := none })
        | none =>
          if p0.gameID.isSome then st
          else if !p0.surveyComplete || !p0.termsAgreed then
            updatePlayer st pid (fun w => { w with waitingReason := some waitingMsg })
          else st) ∧
    strategy1 (strategy1 st pid) pid = strategy1 st pid ∧
    strategy3 (strategy3 st pid) pid = strategy3 st pid ∧
    strategy4 (strategy4 st pid) pid = strategy4 st pid ∧
    strategy2 (strategy2 st pid r1) pid r2 = strategy2 st pid r1 := by
  refine ⟨?_, ?_, ?_, ?_, ?_, ?_, ?_, ?_⟩
  · intro h
    unfold select1
    rw [h]
  · intro h h'
    unfold select3
    rw [h, h']
  · intro h h' h''
    unfold select4
    rw [h, h', h'']
  · intro p0 hp0
    by_cases hgid : p0.gameID.isSome = true
    · have hsel : select4 p0 st.games = none := by
        unfold select4
        simp [hgid]
      rw [hsel, strategy4_assigned st pid p0 hp0 hgid]
      simp [hgid]
    · have hgid' : p0.gameID.isSome = false := by
        cases hg0 : p0.gameID.isSome
        · rfl
        · exact absurd hg0 hgid
      by_cases hb : (!p0.surveyComplete || !p0.termsAgreed) = true
      · have hsel : select4 p0 st.games = none := by
          unfold select4
          simp [hgid', hb]
        rw [hsel, strategy4_waiting st pid p0 hp0 hgid' hb]
        simp [hgid', hb]
      · have hb' : (!p0.surveyComplete || !p0.termsAgreed) = false := by
          cases hb0 : (!p0.surveyComplete || !p0.termsAgreed)
          · rfl
          · exact absurd hb0 hb
        cases hfind : (st.games.filter openPred).find? sparePred with
        | none =>
          have hsel : select4 p0 st.games = none := by
            unfold select4
            simp [hgid', hb', hfind]
          rw [hsel, strategy4_met_none st pid p0 hp0 hgid' hb' hfind]
          simp [hgid', hb']
        | some g =>
          have hsel : select4 p0 st.games = some g.id := by
            unfold select4
            simp [hgid', hb', hfind]
          rw [hsel, strategy4_met_some st pid p0 g hp0 hgid' hb' hfind]
  · cases hp : findPlayer st pid with
    | none =>
      have h1 : strategy1 st pid = st := by unfold strategy1; rw [hp]
      rw [h1]
      exact h1
    | some p0 =>
      cases hsel : select1 p0 st.games with
      | none =>
        have h1 : strategy1 st pid = st := by
          rw [strategy1_char st pid p0 hp, hsel]
        rw [h1]
        exact h1
      | some gid =>
        have h1 : strategy1 st pid = assignPlayer st gid pid := by
          rw [strategy1_char st pid p0 hp, hsel]
        have hp' : findPlayer (strategy1 st pid) pid =
            some { p0 with gameID := some gid } := by
          rw [h1]
          exact findPlayer_assignPlayer_self st gid pid p0 hp
        rw [strategy1_char (strategy1 st pid) pid _ hp',
          select1_assigned { p0 with gameID := some gid } _ rfl]
  · cases hp : findPlayer st pid with
    | none =>
      have h1 : strategy3 st pid = st := by unfold strategy3; rw [hp]
      rw [h1]
      exact h1
    | some p0 =>
      cases hsel : select3 p0 st.games with
      | none =>
        have h1 : strategy3 st pid = st := by
          rw [strategy3_char st pid p0 hp, hsel]
        rw [h1]
        exact h1
      | some gid =>
        have h1 : strategy3 st pid = assignPlayer st gid pid := by
          rw [strategy3_char st pid p0 hp, hsel]
        have hp' : findPlayer (strategy3 st pid) pid =
            some { p0 with gameID := some gid } := by
          rw [h1]
          exact findPlayer_assignPlayer_self st gid pid p0 hp
        rw [strategy3_char (strategy3 st pid) pid _ hp',
          select3_assigned { p0 with gameID := some gid } _ rfl]
  · cases hp : findPlayer st pid with
    | none =>
      have h1 : strategy4 st pid = st := by unfold strategy4; rw [hp]
      rw [h1]
      exact h1
    | some p0 =>
      by_cases hgid : p0.gameID.isSome = true
      · have h1 := strategy4_assigned st pid p0 hp hgid
        rw [h1]
        exact h1
      · have hgid' : p0.gameID.isSome = false := by
          cases hg0 : p0.gameID.isSome
          · rfl
          · exact absurd hg0 hgid
        by_cases hb : (!p0.surveyComplete || !p0.termsAgreed) = true
        · have h1 := strategy4_waiting st pid p0 hp hgid' hb
          have hp' : findPlayer (strategy4 st pid) pid =
              some { p0 with waitingReason := some waitingMsg } := by
            rw [h1]
            exact findPlayer_updatePlayer_self st pid p0
              (fun w => { w with waitingReason := some waitingMsg }) (fun w => rfl) hp
          have h2 := strategy4_waiting (strategy4 st pid) pid
            { p0 with waitingReason := some waitingMsg } hp' hgid' hb
          rw [h2, h1]
          exact updatePlayer_idem st pid
            (fun w => { w with waitingReason := some waitingMsg })
            (fun w => rfl) (fun w => rfl)
        · have hb' : (!p0.surveyComplete || !p0.termsAgreed) = false := by
            cases hb0 : (!p0.surveyComplete || !p0.termsAgreed)
            · rfl
            · exact absurd hb0 hb
          cases hfind : (st.games.filter openPred).find? sparePred with
          | none =>
            have h1 := strategy4_met_none st pid p0 hp hgid' hb' hfind
            rw [h1]
            exact h1
          | some g =>
            have h1 := strategy4_met_some st pid p0 g hp hgid' hb' hfind
            have hp' : findPlayer (strategy4 st pid) pid =
                some { p0 with gameID := some g.id, waitingReason := none } := by
              rw [h1]
              exact findPlayer_updatePlayer_self (assignPlayer st g.id pid) pid
                { p0 with gameID := some g.id }
                (fun w => { w with waitingReason := none }) (fun w => rfl)
                (findPlayer_assignPlayer_self st g.id pid p0 hp)
            rw [strategy4_assigned (strategy4 st pid) pid
              { p0 with gameID := some g.id, waitingReason := none } hp' rfl]
  · cases hp : findPlayer st pid with
    | none =>
      have h1 : strategy2 st pid r1 = st := by unfold strategy2; rw [hp]
      have h2 : strategy2 st pid r2 = st := by unfold strategy2; rw [hp]
      rw [h1]
      exact h2
    | some p0 =>
      cases hsel : select2 p0 st.games r1 with
      | none =>
        have h1 : strategy2 st pid r1 = st := by
          rw [strategy2_char st pid r1 p0 hp, hsel]
        have h2 : strategy2 st pid r2 = st := by
          rw [strategy2_char st pid r2 p0 hp, select2_none_all p0 st.games r1 r2 hsel]
        rw [h1]
        exact h2
      | some gid =>
        have h1 : strategy2 st pid r1 = assignPlayer st gid pid := by
          rw [strategy2_char st pid r1 p0 hp, hsel]
        have hp' : findPlayer (strategy2 st pid r1) pid =
            some { p0 with gameID := some gid } := by
          rw [h1]
          exact findPlayer_assignPlayer_self st gid pid p0 hp
        rw [strategy2_char (strategy2 st pid r1) pid r2 _ hp',
          select2_assigned { p0 with gameID := some gid } _ r2 rfl]

/-- Witness for `strategy_purity_retry` at a concrete state and players. -/
theorem strategy_purity_retry_witness :
    (({ id := "p" } : Player).gameID = ({ id := "q" } : Player).gameID →
      select1 { id := "p" } c7Games = select1 { id := "q" } c7Games) ∧
    (({ id := "p" } : Player).gameID = ({ id := "q" } : Player).gameID →
      ({ id := "p" } : Player).skillLevel = ({ id := "q" } : Player).skillLevel →
      select3 { id := "p" } c7Games = select3 { id := "q" } c7Games) ∧
    (({ id := "p" } : Player).gameID = ({ id := "q" } : Player).gameID →
      ({ id := "p" } : Player).surveyComplete = ({ id := "q" } : Player).surveyComplete →
      ({ id := "p" } : Player).termsAgreed = ({ id := "q" } : Player).termsAgreed →
      select4 { id := "p" } c7Games = select4 { id := "q" } c7Games) ∧
    (∀ p0, findPlayer ⟨c7Games, [{ id := "p" }], []⟩ "p" = some p0 →
      strategy4 ⟨c7Games, [{ id := "p" }], []⟩ "p" =
        match select4 p0 c7Games with
        | some gid =>
          updatePlayer (assignPlayer ⟨c7Games, [{ id := "p" }], []⟩ gid "p") "p"
            (fun w => { w with waitingReason := none })
        | none =>
          if p0.gameID.isSome then ⟨c7Games, [{ id := "p" }], []⟩
          else if !p0.surveyComplete || !p0.termsAgreed then
            updatePlayer ⟨c7Games, [{ id := "p" }], []⟩ "p"
              (fun w => { w with waitingReason := some waitingMsg })
          else ⟨c7Games, [{ id := "p" }], []⟩) ∧
    strategy1 (strategy1 ⟨c7Games, [{ id := "p" }], []⟩ "p") "p" =
      strategy1 ⟨c7Games, [{ id := "p" }], []⟩ "p" ∧
    strategy3 (strategy3 ⟨c7Games, [{ id := "p" }], []⟩ "p") "p" =
      strategy3 ⟨c7Games, [{ id := "p" }], []⟩ "p" ∧
    strategy4 (strategy4 ⟨c7Games, [{ id := "p" }], []⟩ "p") "p" =
      strategy4 ⟨c7Games, [{ id := "p" }], []⟩ "p" ∧
    strategy2 (strategy2 ⟨c7Games, [{ id := "p" }], []⟩ "p" 0) "p" 1 =
      strategy2 ⟨c7Games, [{ id := "p" }], []⟩ "p" 0 :=
  strategy_purity_retry ⟨c7Games, [{ id := "p" }], []⟩ "p" 0 1
    { id := "p" } { id := "q" } c7Games

end ClaimC7

section FreshIdLemmas

theorem joinIds_le (gs : List Game) : ∀ g ∈ gs, g.id.length ≤ (joinIds gs).length := by
  induction gs with
  | nil => intro g hg; cases hg
  | cons h t ih =>
    intro g hg
    have hjoin : joinIds (h :: t) = h.id ++ joinIds t := rfl
    rcases List.mem_cons.mp hg with rfl | hg'
    · rw [hjoin, String.length_append]; omega
    · rw [hjoin, String.length_append]
      have := ih g hg'
      omega

theorem freshId_not_mem (gs : List Game) : ∀ g ∈ gs, g.id ≠ freshId gs := by
  intro g hg heq
  have h1 := joinIds_le gs g hg
  have h2 : (freshId gs).length = (joinIds gs).length + 1 := by
    unfold freshId
    rw [String.length_append]
    rfl
  rw [heq, h2] at h1
  omega

theorem freshId_not_mem_map (gs : List Game) : freshId gs ∉ gs.map (fun g => g.id) := by
  intro h
  rw [List.mem_map] at h
  obtain ⟨g, hg, hid⟩ := h
  exact freshId_not_mem gs g hg hid

end FreshIdLemmas

section EndedNoGainLemmas

theorem endedNoGain_of_games_eq {st st' : EState} (h : st'.games = st.games) :
    EndedNoGain st st' := by
  intro g' hg' hend q hq
  rw [h] at hg'
  exact ⟨g', hg', rfl, hend, hq⟩

theorem endedNoGain_refl (st : EState) : EndedNoGain st st :=
  endedNoGain_of_games_eq rfl

theorem endedNoGain_trans {a b c : EState} (h1 : EndedNoGain a b)
    (h2 : EndedNoGain b c) : EndedNoGain a c := by
  intro g' hg' hend q hq
  obtain ⟨g2, hg2, hid2, hend2, hq2⟩ := h2 g' hg' hend q hq
  obtain ⟨g1, hg1, hid1, hend1, hq1⟩ := h1 g2 hg2 hend2 q hq2
  exact ⟨g1, hg1, hid1.trans hid2, hend1, hq1⟩

theorem endedNoGain_congr {st st' st'' : EState} (h : st'.games = st''.games)
    (h2 : EndedNoGain st st'') : EndedNoGain st st' := by
  intro g' hg' hend q hq
  rw [h] at hg'
  exact h2 g' hg' hend q hq

theorem assignG_players_of_ne {gid pid : String} {g : Game}
    (h : (g.id == gid) = false) :
    (assignG gid pid g).players = g.players.filter (fun q => !(q == pid)) := by
  unfold assignG
  rw [if_neg (by simp [h])]

theorem assignG_players_of_eq {gid pid : String} {g : Game}
    (h : (g.id == gid) = true) :
    (assignG gid pid g).players =
      g.players.filter (fun q => !(q == pid)) ++ [pid] := by
  unfold assignG
  rw [if_pos h]

theorem openPred_not_ended {g : Game} (h : openPred g = true) : g.hasEnded = false := by
  unfold openPred at h
  simp only [Bool.and_eq_true, Bool.not_eq_true'] at h
  exact h.1

theorem openPred_not_started {g : Game} (h : openPred g = true) :
    g.hasStarted = false := by
  unfold openPred at h
  simp only [Bool.and_eq_true, Bool.not_eq_true'] at h
  exact h.2

theorem assignPlayer_endedNoGain (st : EState) (gid pid : String)
    (hsafe : ∀ g ∈ st.games, g.id = gid → g.hasEnded = false) :
    EndedNoGain st (assignPlayer st gid pid) := by
  intro g' hg' hend q hq
  rw [assignPlayer_games] at hg'
  obtain ⟨g, hg, rfl⟩ := List.mem_map.mp hg'
  rw [assignG_hasEnded] at hend
  have hne : (g.id == gid) = false := by
    by_cases h : g.id = gid
    · have := hsafe g hg h
      rw [this] at hend
      simp at hend
    · simp [h]
  rw [assignG_players_of_ne hne] at hq
  exact ⟨g, hg, (assignG_id gid pid g).symm, hend, (List.mem_filter.mp hq).1⟩

theorem assignPlayer_safe_pres (st : EState) (gid' pid gid : String)
    (hsafe : ∀ g ∈ st.games, g.id = gid → g.hasEnded = false) :
    ∀ g ∈ (assignPlayer st gid' pid).games, g.id = gid → g.hasEnded = false := by
  intro g' hg' hid
  rw [assignPlayer_games] at hg'
  obtain ⟨g, hg, rfl⟩ := List.mem_map.mp hg'
  rw [assignG_id] at hid
  rw [assignG_hasEnded]
  exact hsafe g hg hid

theorem assignBracket_endedNoGain (gid : String) :
    ∀ (b : List Player) (st : EState),
      (∀ g ∈ st.games, g.id = gid → g.hasEnded = false) →
      EndedNoGain st (assignBracket st gid b) := by
  intro b
  induction b with
  | nil => intro st _; exact endedNoGain_refl st
  | cons p rest ih =>
    intro st hsafe
    unfold assignBracket
    exact endedNoGain_trans (assignPlayer_endedNoGain st gid p.id hsafe)
      (ih _ (assignPlayer_safe_pres st gid p.id gid hsafe))

theorem processBrackets_endedNoGain (bid : String) :
    ∀ (bl : List (List Player)) (st : EState),
      EndedNoGain st (processBrackets st bid bl) := by
  intro bl
  induction bl with
  | nil => intro st; exact endedNoGain_refl st
  | cons b bs ih =>
    intro st
    unfold processBrackets
    split
    · exact ih st
    · have h1 : EndedNoGain st
          { st with games := st.games ++ [newSkillGame st.games bid] } := by
        intro g' hg' hend q hq
        rcases List.mem_append.mp hg' with hl | hr
        · exact ⟨g', hl, rfl, hend, hq⟩
        · exfalso
          have hgg : g' = newSkillGame st.games bid := List.mem_singleton.mp hr
          rw [hgg] at hend
          exact absurd hend (by simp [newSkillGame])
      have hsafe1 : ∀ h ∈ ({ st with
            games := st.games ++ [newSkillGame st.games bid] } : EState).games,
          h.id = (newSkillGame st.games bid).id → h.hasEnded = false := by
        intro h hmem hid
        rcases List.mem_append.mp hmem with hl | hr
        · exact absurd hid (freshId_not_mem st.games h hl)
        · rw [List.mem_singleton.mp hr]
          rfl
      exact endedNoGain_trans h1
        (endedNoGain_trans
          (assignBracket_endedNoGain (newSkillGame st.games bid).id b _ hsafe1) (ih _))

end EndedNoGainLemmas

section SelectSpec

theorem select1_some_spec (p : Player) (gs : List Game) (gid : String)
    (h : select1 p gs = some gid) :
    ∃ g ∈ gs, openPred g = true ∧ sparePred g = true ∧ g.id = gid := by
  unfold select1 at h
  by_cases hg : p.gameID.isSome = true
  · simp [hg] at h
  · rw [if_neg hg] at h
    cases hfind : (sortById (gs.filter openPred)).find? sparePred with
    | none => rw [hfind] at h; cases h
    | some g =>
      rw [hfind] at h
      have hmem := List.mem_filter.mp (mem_sortById.mp (List.mem_of_find?_eq_some hfind))
      have hsp := List.find?_some hfind
      exact ⟨g, hmem.1, hmem.2, hsp, by simpa using h⟩

theorem select2_some_spec (p : Player) (gs : List Game) (r : Nat) (gid : String)
    (h : select2 p gs r = some gid) :
    ∃ g, g ∈ underassignedOf gs ∧ g ∈ gs ∧ openPred g = true ∧ g.id = gid := by
  unfold select2 at h
  by_cases hg : p.gameID.isSome = true
  · simp [hg] at h
  · rw [if_neg hg] at h
    cases hget : (underassignedOf gs)[r % (underassignedOf gs).length]? with
    | none => rw [hget] at h; cases h
    | some g =>
      rw [hget] at h
      have hmem : g ∈ underassignedOf gs := List.getElem?_mem hget
      have hmem' : g ∈ gs.filter openPred := by
        have := hmem
        unfold underassignedOf at this
        exact (List.mem_filter.mp this).1
      have hfil := List.mem_filter.mp hmem'
      exact ⟨g, hmem, hfil.1, hfil.2, by simpa using h⟩

theorem select3_some_spec (p : Player) (gs : List Game) (gid : String)
    (h : select3 p gs = some gid) :
    ∃ g ∈ gs, openPred g = true ∧ g.requiredSkillLevel = p.skillLevel ∧
      sparePred g = true ∧ g.id = gid := by
  unfold select3 at h
  by_cases hg : p.gameID.isSome = true
  · simp [hg] at h
  · rw [if_neg hg] at h
    cases hfind : ((gs.filter openPred).filter
        (fun g => g.requiredSkillLevel == p.skillLevel)).find? sparePred with
    | none => rw [hfind] at h; cases h
    | some g =>
      rw [hfind] at h
      have h1 := List.mem_filter.mp (List.mem_of_find?_eq_some hfind)
      have h2 := List.mem_filter.mp h1.1
      have hreq : g.requiredSkillLevel = p.skillLevel := by
        have := h1.2
        simpa using this
      exact ⟨g, h2.1, h2.2, hreq, List.find?_some hfind, by simpa using h⟩

end SelectSpec

section GamesCases

theorem strategy1_games_cases (st : EState) (pid : String) :
    (strategy1 st pid).games = st.games ∨
    ∃ g ∈ st.games, openPred g = true ∧ sparePred g = true ∧
      (strategy1 st pid).games = (assignPlayer st g.id pid).games := by
  cases hp : findPlayer st pid with
  | none => left; unfold strategy1; rw [hp]
  | some p =>
    cases hsel : select1 p st.games with
    | none => left; rw [strategy1_char st pid p hp, hsel]
    | some gid =>
      obtain ⟨g, hg, ho, hs, hid⟩ := select1_some_spec p st.games gid hsel
      right
      exact ⟨g, hg, ho, hs, by rw [strategy1_char st pid p hp, hsel, ← hid]⟩

theorem strategy2_games_cases (st : EState) (pid : String) (r : Nat) :
    (strategy2 st pid r).games = st.games ∨
    ∃ g, g ∈ underassignedOf st.games ∧ g ∈ st.games ∧ openPred g = true ∧
      (strategy2 st pid r).games = (assignPlayer st g.id pid).games := by
  cases hp : findPlayer st pid with
  | none => left; unfold strategy2; rw [hp]
  | some p =>
    cases hsel : select2 p st.games r with
    | none => left; rw [strategy2_char st pid r p hp, hsel]
    | some gid =>
      obtain ⟨g, hua, hg, ho, hid⟩ := select2_some_spec p st.games r gid hsel
      right
      exact ⟨g, hua, hg, ho, by rw [strategy2_char st pid r p hp, hsel, ← hid]⟩

theorem strategy3_games_cases (st : EState) (pid : String) :
    (strategy3 st pid).games = st.games ∨
    ∃ g ∈ st.games, openPred g = true ∧ sparePred g = true ∧
      (strategy3 st pid).games = (assignPlayer st g.id pid).games := by
  cases hp : findPlayer st pid with
  | none => left; unfold strategy3; rw [hp]
  | some p =>
    cases hsel : select3 p st.games with
    | none => left; rw [strategy3_char st pid p hp, hsel]
    | some gid =>
      obtain ⟨g, hg, ho, -, hs, hid⟩ := select3_some_spec p st.games gid hsel
      right
      exact ⟨g, hg, ho, hs, by rw [strategy3_char st pid p hp, hsel, ← hid]⟩

theorem strategy4_games_cases (st : EState) (pid : String) :
    (strategy4 st pid).games = st.games ∨
    ∃ g ∈ st.games, openPred g = true ∧ sparePred g = true ∧
      (strategy4 st pid).games = (assignPlayer st g.id pid).games := by
  cases hp : findPlayer st pid with
  | none => left; unfold strategy4; rw [hp]
  | some p =>
    by_cases hiso : p.gameID.isSome = true
    · left
      unfold strategy4
      rw [hp]
      simp [hiso]
    · have hiso' : p.gameID.isSome = false := by
        revert hiso; cases p.gameID.isSome <;> simp
      by_cases hcond : (!p.surveyComplete || !p.termsAgreed) = true
      · left
        have hres : strategy4 st pid =
            updatePlayer st pid (fun q => { q with waitingReason := some waitingMsg }) := by
          unfold strategy4
          rw [hp]
          simp [hiso', hcond]
        rw [hres]
        rfl
      · have hcond' : (!p.surveyComplete || !p.termsAgreed) = false := by
          revert hcond; cases (!p.surveyComplete || !p.termsAgreed) <;> simp
        cases hfind : (st.games.filter openPred).find? sparePred with
        | none =>
          left
          unfold strategy4
          rw [hp]
          simp [hiso', hcond', hfind]
        | some g =>
          right
          have hmem := List.mem_filter.mp (List.mem_of_find?_eq_some hfind)
          have hres : strategy4 st pid =
              updatePlayer (assignPlayer st g.id pid) pid
                (fun q => { q with waitingReason := none }) := by
            unfold strategy4
            rw [hp]
            simp [hiso', hcond', hfind]
          exact ⟨g, hmem.1, hmem.2, List.find?_some hfind, by rw [hres]; rfl⟩

theorem replayHandler_games_cases (st : EState) (pid : String) :
    (replayHandler st pid).games = st.games ∨
    ∃ g ∈ st.games, g.hasEnded = false ∧ sparePred g = true ∧
      (replayHandler st pid).games = (assignPlayer st g.id pid).games := by
  cases hp : findPlayer st pid with
  | none => left; unfold replayHandler; rw [hp]
  | some p =>
    by_cases hr : p.requestReplay = true
    · have hkey : replayHandler st pid =
          match replayFind st.games (st.batches.filter (fun b => b.status == "running")) with
          | some g =>
            updatePlayer
              (assignPlayer
                (updatePlayer st pid (fun q => { q with gameID := none, ended := none }))
                g.id pid)
              pid (fun q => { q with requestReplay := false })
          | none =>
            updatePlayer
              (updatePlayer st pid (fun q => { q with gameID := none, ended := none }))
              pid (fun q => { q with replayError := some replayMsg,
                                     requestReplay := false }) := by
        unfold replayHandler
        rw [hp]
        simp [hr]
      cases hfind : replayFind st.games
          (st.batches.filter (fun b => b.status == "running")) with
      | some g =>
        rw [hfind] at hkey
        obtain ⟨hmem, hend, hsp, -⟩ := replayFind_some st.games _ g hfind
        right
        exact ⟨g, hmem, hend, hsp, by rw [hkey]; rfl⟩
      | none =>
        rw [hfind] at hkey
        left
        rw [hkey]
        rfl
    · left
      have hr' : p.requestReplay = false := by
        revert hr; cases p.requestReplay <;> simp
      rw [replayHandler_noop st pid p hp hr']

theorem skillHandler_cases (st : EState) (pid : String) :
    skillHandler st pid = st ∨
    ∃ bid, skillHandler st pid =
      processBrackets st bid (brackets (sortByRating (st.players.filter poolPred))) := by
  cases hp : findPlayer st pid with
  | none => left; unfold skillHandler; rw [hp]
  | some p =>
    by_cases h1 : p.gameID.isSome = true
    · left; unfold skillHandler; rw [hp]; simp [h1]
    · have h1' : p.gameID.isSome = false := by
        revert h1; cases p.gameID.isSome <;> simp
      cases hr : p.skillRating with
      | none => left; unfold skillHandler; rw [hp]; simp [h1', hr]
      | some rv =>
        by_cases h2 : (rv == 0) = true
        · left; unfold skillHandler; rw [hp]; simp [h1', hr, h2]
        · have h2' : (rv == 0) = false := by
            revert h2; cases (rv == 0) <;> simp
          by_cases h3 : (sortByRating (st.players.filter poolPred)).length < requiredPlayers
          · left; unfold skillHandler; rw [hp]; simp [h1', hr, h2', h3]
          · cases hb : st.batches.filter (fun b => b.status == "running") with
            | nil => left; unfold skillHandler; rw [hp]; simp [h1', hr, h2', h3, hb]
            | cons batch rest =>
              right
              refine ⟨batch.id, ?_⟩
              unfold skillHandler
              rw [hp]
              simp [h1', hr, h2', h3, hb]

end GamesCases

section IdPreservation

theorem assignPlayer_gameIds (st : EState) (gid pid : String) :
    (assignPlayer st gid pid).games.map (fun g => g.id) =
      st.games.map (fun g => g.id) := by
  rw [assignPlayer_games, List.map_map]
  have : ((fun g : Game => g.id) ∘ assignG gid pid) = fun g : Game => g.id :=
    funext fun g => assignG_id gid pid g
  rw [this]

theorem nodupIds_of_ids_eq {st st' : EState}
    (h : st'.games.map (fun g => g.id) = st.games.map (fun g => g.id))
    (hnd : NodupIds st) : NodupIds st' := by
  unfold NodupIds at hnd ⊢
  rw [h]
  exact hnd

theorem assignBracket_gameIds (gid : String) :
    ∀ (b : List Player) (st : EState),
      (assignBracket st gid b).games.map (fun g => g.id) =
        st.games.map (fun g => g.id) := by
  intro b
  induction b with
  | nil => intro st; rfl
  | cons p rest ih =>
    intro st
    unfold assignBracket
    rw [ih, assignPlayer_gameIds]

theorem processBrackets_nodup (bid : String) :
    ∀ (bl : List (List Player)) (st : EState),
      NodupIds st → NodupIds (processBrackets st bid bl) := by
  intro bl
  induction bl with
  | nil => intro st h; exact h
  | cons b bs ih =>
    intro st hnd
    unfold processBrackets
    split
    · exact ih st hnd
    · apply ih
      apply nodupIds_of_ids_eq (assignBracket_gameIds _ b _)
      unfold NodupIds
      rw [List.map_append]
      rw [List.nodup_append]
      refine ⟨hnd, List.nodup_singleton _, ?_⟩
      intro x hx hx'
      have : x = freshId st.games := by simpa [newSkillGame] using hx'
      rw [this] at hx
      exact freshId_not_mem_map st.games hx

theorem step_nodupIds {st st' : EState} (h : Step st st') (hnd : NodupIds st) :
    NodupIds st' := by
  cases h with
  | seqFill pid =>
    rcases strategy1_games_cases st pid with hc | ⟨g, _, _, _, hc⟩
    · exact nodupIds_of_ids_eq (by rw [hc]) hnd
    · exact nodupIds_of_ids_eq (by rw [hc, assignPlayer_gameIds]) hnd
  | randBal pid r =>
    rcases strategy2_games_cases st pid r with hc | ⟨g, _, _, _, hc⟩
    · exact nodupIds_of_ids_eq (by rw [hc]) hnd
    · exact nodupIds_of_ids_eq (by rw [hc, assignPlayer_gameIds]) hnd
  | attrMatch pid =>
    rcases strategy3_games_cases st pid with hc | ⟨g, _, _, _, hc⟩
    · exact nodupIds_of_ids_eq (by rw [hc]) hnd
    · exact nodupIds_of_ids_eq (by rw [hc, assignPlayer_gameIds]) hnd
  | condPool pid =>
    rcases strategy4_games_cases st pid with hc | ⟨g, _, _, _, hc⟩
    · exact nodupIds_of_ids_eq (by rw [hc]) hnd
    · exact nodupIds_of_ids_eq (by rw [hc, assignPlayer_gameIds]) hnd
  | replay pid =>
    rcases replayHandler_games_cases st pid with hc | ⟨g, _, _, _, hc⟩
    · exact nodupIds_of_ids_eq (by rw [hc]) hnd
    · exact nodupIds_of_ids_eq (by rw [hc, assignPlayer_gameIds]) hnd
  | skill pid =>
    rcases skillHandler_cases st pid with hc | ⟨bid, hc⟩
    · exact nodupIds_of_ids_eq (by rw [hc]) hnd
    · rw [hc]
      exact processBrackets_nodup bid _ st hnd

theorem step_endedNoGain {st st' : EState} (hnd : NodupIds st) (h : Step st st') :
    EndedNoGain st st' := by
  have hsafe : ∀ (g : Game), g ∈ st.games → g.hasEnded = false →
      ∀ g2 ∈ st.games, g2.id = g.id → g2.hasEnded = false := by
    intro g hg hge g2 hg2 hid
    have : g2 = g := List.inj_on_of_nodup_map hnd hg2 hg hid
    rw [this]
    exact hge
  cases h with
  | seqFill pid =>
    rcases strategy1_games_cases st pid with hc | ⟨g, hg, ho, -, hc⟩
    · exact endedNoGain_of_games_eq hc
    · exact endedNoGain_congr hc
        (assignPlayer_endedNoGain st g.id pid (hsafe g hg (openPred_not_ended ho)))
  | randBal pid r =>
    rcases strategy2_games_cases st pid r with hc | ⟨g, -, hg, ho, hc⟩
    · exact endedNoGain_of_games_eq hc
    · exact endedNoGain_congr hc
        (assignPlayer_endedNoGain st g.id pid (hsafe g hg (openPred_not_ended ho)))
  | attrMatch pid =>
    rcases strategy3_games_cases st pid with hc | ⟨g, hg, ho, -, hc⟩
    · exact endedNoGain_of_games_eq hc
    · exact endedNoGain_congr hc
        (assignPlayer_endedNoGain st g.id pid (hsafe g hg (openPred_not_ended ho)))
  | condPool pid =>
    rcases strategy4_games_cases st pid with hc | ⟨g, hg, ho, -, hc⟩
    · exact endedNoGain_of_games_eq hc
    · exact endedNoGain_congr hc
        (assignPlayer_endedNoGain st g.id pid (hsafe g hg (openPred_not_ended ho)))
  | replay pid =>
    rcases replayHandler_games_cases st pid with hc | ⟨g, hg, hend, -, hc⟩
    · exact endedNoGain_of_games_eq hc
    · exact endedNoGain_congr hc
        (assignPlayer_endedNoGain st g.id pid (hsafe g hg hend))
  | skill pid =>
    rcases skillHandler_cases st pid with hc | ⟨bid, hc⟩
    · exact endedNoGain_of_games_eq (by rw [hc])
    · rw [hc]
      exact processBrackets_endedNoGain bid _ st

theorem rtg_nodupIds {st st' : EState} (h : Relation.ReflTransGen Step st st')
    (hnd : NodupIds st) : NodupIds st' := by
  induction h with
  | refl => exact hnd
  | tail hab hbc ih => exact step_nodupIds hbc ih

end IdPreservation

section ClaimC8

/-- C8, counterexample: `c8Game` is running (started, not ended) with unmet
capacity, so the spec's description of the candidate set contains it, but
the code's `availableGames` filter excludes every started game — the
candidate set is not "exactly the sessions in state forming or running with
unmet capacity". -/
theorem availableGames_counterexample :
    c8Game.hasEnded = false ∧ c8Game.hasStarted = true ∧ sparePred c8Game = true ∧
    specOpenSessions [c8Game] = [c8Game] ∧ availableGames [c8Game] = [] := by
  decide

/-- C8 (amended): the candidate set `availableGames` consists exactly of the
games that are not ended, NOT STARTED, and of unmet capacity (the spec's
"forming or running" over-approximates: started games are excluded); and an
ended session never gains a member under any sequence of handler steps —
every member of an ended game afterwards was already a member of that ended
game before. -/
theorem availableGames_and_ended_frozen (st st' : EState)
    (hnd : NodupIds st) (h : Relation.ReflTransGen Step st st') :
    (∀ (gs : List Game) (g : Game), g ∈ availableGames gs ↔
      g ∈ gs ∧ g.hasEnded = false ∧ g.hasStarted = false ∧ sparePred g = true) ∧
    EndedNoGain st st' := by
  constructor
  · intro gs g
    unfold availableGames
    rw [List.mem_filter]
    constructor
    · rintro ⟨h1, h2⟩
      simp only [Bool.and_eq_true, Bool.not_eq_true'] at h2
      exact ⟨h1, h2.1.1, h2.1.2, h2.2⟩
    · rintro ⟨h1, h2, h3, h4⟩
      refine ⟨h1, ?_⟩
      simp [h2, h3, h4]
  · induction h with
    | refl => exact endedNoGain_refl st
    | tail hab hbc ih =>
      exact endedNoGain_trans ih (step_endedNoGain (rtg_nodupIds hab hnd) hbc)

/-- Witness for `availableGames_and_ended_frozen`: one Sequential Fill step
from `c8WSt`. -/
theorem availableGames_and_ended_frozen_witness :
    (∀ (gs : List Game) (g : Game), g ∈ availableGames gs ↔
      g ∈ gs ∧ g.hasEnded = false ∧ g.hasStarted = false ∧ sparePred g = true) ∧
    EndedNoGain c8WSt (strategy1 c8WSt "p") :=
  availableGames_and_ended_frozen c8WSt (strategy1 c8WSt "p") (by decide)
    (Relation.ReflTransGen.single (Step.seqFill c8WSt "p"))

end ClaimC8

section ClaimC1

theorem capOK_congr {st' st'' : EState} (h : st'.games = st''.games)
    (hc : CapOK st'') : CapOK st' := by
  unfold CapOK at hc ⊢
  rw [h]
  exact hc

theorem assignPlayer_capOK (st : EState) (gid pid : String)
    (hsp : ∀ g ∈ st.games, g.id = gid → sparePred g = true)
    (hcap : CapOK st) : CapOK (assignPlayer st gid pid) := by
  intro g' hg'
  rw [assignPlayer_games] at hg'
  obtain ⟨g, hg, rfl⟩ := List.mem_map.mp hg'
  rw [assignG_treatment]
  by_cases h : (g.id == gid) = true
  · rw [assignG_players_of_eq h, List.length_append]
    have hlt : g.players.length < g.treatment.playerCount := by
      simpa [sparePred] using hsp g hg (eq_of_beq h)
    have hfle : (g.players.filter (fun q => !(q == pid))).length ≤ g.players.length :=
      List.length_filter_le _ _
    simp only [List.length_singleton]
    omega
  · rw [assignG_players_of_ne (by revert h; cases (g.id == gid) <;> simp)]
    exact Nat.le_trans (List.length_filter_le _ _) (hcap g hg)

theorem brackets_length_le :
    ∀ (l : List Player) (b : List Player), b ∈ brackets l →
      b.length ≤ requiredPlayers
  | [], b, hb => absurd hb (List.not_mem_nil b)
  | [a], b, hb => by
    simp only [brackets, List.mem_singleton] at hb
    subst hb
    simp [requiredPlayers]
  | [a, a2], b, hb => by
    simp only [brackets, List.mem_singleton] at hb
    subst hb
    simp [requiredPlayers]
  | [a, a2, a3], b, hb => by
    simp only [brackets, List.mem_singleton] at hb
    subst hb
    simp [requiredPlayers]
  | a :: a2 :: a3 :: a4 :: rest, b, hb => by
    rcases List.mem_cons.mp (by simpa only [brackets] using hb) with rfl | h'
    · simp [requiredPlayers]
    · exact brackets_length_le rest b h'

theorem assignG_length_le (gid pid : String) (g : Game) :
    (assignG gid pid g).players.length ≤ g.players.length + 1 := by
  unfold assignG
  split
  · rw [List.length_append]
    have := List.length_filter_le (fun q => !(q == pid)) g.players
    simp only [List.length_singleton]
    omega
  · show (g.players.filter (fun q => !(q == pid))).length ≤ g.players.length + 1
    have := List.length_filter_le (fun q => !(q == pid)) g.players
    omega

theorem assignBracket_capBound (gid : String) :
    ∀ (b : List Player) (st : EState),
      (∀ g ∈ st.games,
        (g.id = gid → g.players.length + b.length ≤ g.treatment.playerCount) ∧
        (g.id ≠ gid → g.players.length ≤ g.treatment.playerCount)) →
      CapOK (assignBracket st gid b) := by
  intro b
  induction b with
  | nil =>
    intro st hb g hg
    by_cases h : g.id = gid
    · have := (hb g hg).1 h
      omega
    · exact (hb g hg).2 h
  | cons p rest ih =>
    intro st hb
    unfold assignBracket
    apply ih
    intro g' hg'
    rw [assignPlayer_games] at hg'
    obtain ⟨g, hg, rfl⟩ := List.mem_map.mp hg'
    rw [assignG_id, assignG_treatment]
    constructor
    · intro hid
      have h1 := (hb g hg).1 hid
      have h2 := assignG_length_le gid p.id g
      simp only [List.length_cons] at h1
      omega
    · intro hid
      have h1 := (hb g hg).2 hid
      have hne : (g.id == gid) = false := by
        cases hbe : (g.id == gid)
        · rfl
        · exact absurd (eq_of_beq hbe) hid
      rw [assignG_players_of_ne hne]
      exact Nat.le_trans (List.length_filter_le _ _) h1

theorem processBrackets_capOK (bid : String) :
    ∀ (bl : List (List Player)) (st : EState),
      (∀ b ∈ bl, b.length ≤ requiredPlayers) →
      CapOK st → CapOK (processBrackets st bid bl) := by
  intro bl
  induction bl with
  | nil => intro st _ hc; exact hc
  | cons b bs ih =>
    intro st hlen hc
    unfold processBrackets
    split
    · exact ih st (fun b' hb' => hlen b' (List.mem_cons_of_mem b hb')) hc
    · apply ih _ (fun b' hb' => hlen b' (List.mem_cons_of_mem b hb'))
      apply assignBracket_capBound
      intro g' hg'
      rcases List.mem_append.mp hg' with hl | hr
      · constructor
        · intro hid
          exact absurd hid (freshId_not_mem st.games g' hl)
        · intro _
          exact hc g' hl
      · have hg'' : g' = newSkillGame st.games bid := List.mem_singleton.mp hr
        subst hg''
        constructor
        · intro _
          have : b.length ≤ requiredPlayers := hlen b (List.mem_cons_self b bs)
          simp only [newSkillGame, List.length_nil]
          omega
        · intro hid
          exact absurd rfl hid

theorem checkedStep_toStep {st st' : EState} (h : CheckedStep st st') : Step st st' := by
  cases h with
  | seqFill pid => exact Step.seqFill st pid
  | attrMatch pid => exact Step.attrMatch st pid
  | condPool pid => exact Step.condPool st pid
  | replay pid => exact Step.replay st pid
  | skill pid => exact Step.skill st pid

theorem checkedStep_capOK {st st' : EState} (h : CheckedStep st st')
    (hnd : NodupIds st) (hcap : CapOK st) : CapOK st' := by
  have hsp : ∀ (g : Game), g ∈ st.games → sparePred g = true →
      ∀ g2 ∈ st.games, g2.id = g.id → sparePred g2 = true := by
    intro g hg hgs g2 hg2 hid
    have : g2 = g := List.inj_on_of_nodup_map hnd hg2 hg hid
    rw [this]
    exact hgs
  cases h with
  | seqFill pid =>
    rcases strategy1_games_cases st pid with hc | ⟨g, hg, -, hs, hc⟩
    · exact capOK_congr hc hcap
    · exact capOK_congr hc (assignPlayer_capOK st g.id pid (hsp g hg hs) hcap)
  | attrMatch pid =>
    rcases strategy3_games_cases st pid with hc | ⟨g, hg, -, hs, hc⟩
    · exact capOK_congr hc hcap
    · exact capOK_congr hc (assignPlayer_capOK st g.id pid (hsp g hg hs) hcap)
  | condPool pid =>
    rcases strategy4_games_cases st pid with hc | ⟨g, hg, -, hs, hc⟩
    · exact capOK_congr hc hcap
    · exact capOK_congr hc (assignPlayer_capOK st g.id pid (hsp g hg hs) hcap)
  | replay pid =>
    rcases replayHandler_games_cases st pid with hc | ⟨g, hg, -, hs, hc⟩
    · exact capOK_congr hc hcap
    · exact capOK_congr hc (assignPlayer_capOK st g.id pid (hsp g hg hs) hcap)
  | skill pid =>
    rcases skillHandler_cases st pid with hc | ⟨bid, hc⟩
    · exact capOK_congr (by rw [hc]) hcap
    · rw [hc]
      exact processBrackets_capOK bid _ st
        (brackets_length_le (sortByRating (st.players.filter poolPred))) hcap

/-- C1, counterexample: Strategy 2 performs no `occupancy < capacity` check
before calling `assignPlayer` — starting from a state satisfying the
capacity invariant whose only open game is full, one Strategy 2 step
overbooks it. -/
theorem strategy2_overbooks_counterexample :
    CapOK c1CSt ∧ ¬ CapOK (strategy2 c1CSt "b" 0) ∧
    (∃ g ∈ (strategy2 c1CSt "b" 0).games,
      g.treatment.playerCount < g.players.length) := by
  decide

/-- C1 (amended): Strategies 1, 3, 4, the replay handler and the
bracket-matchmaking handler all check `occupancy < capacity` (or assign only
a capacity-sized bracket to a fresh capacity-`requiredPlayers` game) before
assigning, and any sequence of these handler invocations preserves
`|members| ≤ capacity` for every game; Strategy 2 checks no capacity and can
exceed it (see the counterexample). -/
theorem capacity_invariant_checked (st st' : EState)
    (hnd : NodupIds st) (hcap : CapOK st)
    (h : Relation.ReflTransGen CheckedStep st st') : CapOK st' := by
  induction h with
  | refl => exact hcap
  | tail hab hbc ih =>
    exact checkedStep_capOK hbc
      (rtg_nodupIds (Relation.ReflTransGen.mono (fun _ _ => checkedStep_toStep) hab) hnd) ih

/-- Witness for `capacity_invariant_checked`: one Sequential Fill step from
`c1WSt` keeps the game within capacity. -/
theorem capacity_invariant_checked_witness : CapOK (strategy1 c1WSt "p") :=
  capacity_invariant_checked c1WSt (strategy1 c1WSt "p") (by decide) (by decide)
    (Relation.ReflTransGen.single (CheckedStep.seqFill c1WSt "p"))

end ClaimC1

section AtMostOneLemmas

theorem mem_assignG_players {gid pid q : String} {g : Game} :
    q ∈ (assignG gid pid g).players ↔
      (q ∈ g.players ∧ q ≠ pid) ∨ ((g.id == gid) = true ∧ q = pid) := by
  unfold assignG
  by_cases h : (g.id == gid) = true
  · rw [if_pos h]
    show q ∈ g.players.filter (fun q => !(q == pid)) ++ [pid] ↔ _
    rw [List.mem_append, List.mem_filter, List.mem_singleton]
    simp only [Bool.not_eq_true', beq_eq_false_iff_ne, ne_eq, h, true_and]
  · rw [if_neg h]
    show q ∈ g.players.filter (fun q => !(q == pid)) ↔ _
    rw [List.mem_filter]
    simp only [Bool.not_eq_true', beq_eq_false_iff_ne, ne_eq]
    constructor
    · intro hq
      exact Or.inl hq
    · rintro (hq | ⟨hgid, -⟩)
      · exact hq
      · exact absurd hgid h

theorem atMostOne_congr {st' st'' : EState} (h : st'.games = st''.games)
    (hc : AtMostOneActive st'') : AtMostOneActive st' := by
  unfold AtMostOneActive at hc ⊢
  rw [h]
  exact hc

theorem filter_notEnded_map_assignG (gid pid : String) (l : List Game) :
    (l.map (assignG gid pid)).filter (fun g => !g.hasEnded) =
      (l.filter (fun g => !g.hasEnded)).map (assignG gid pid) := by
  induction l with
  | nil => rfl
  | cons a t ih =>
    cases ha : a.hasEnded <;> simp [List.filter_cons, ha, ih]

theorem assignPlayer_atMostOne (st : EState) (gid pid : String)
    (hnd : NodupIds st) (hone : AtMostOneActive st) :
    AtMostOneActive (assignPlayer st gid pid) := by
  unfold AtMostOneActive at hone ⊢
  rw [assignPlayer_games, filter_notEnded_map_assignG, List.pairwise_map]
  have hids : (st.games.filter (fun g => !g.hasEnded)).Pairwise
      (fun a b => a.id ≠ b.id) := by
    have h1 : ((st.games.filter (fun g => !g.hasEnded)).map (fun g => g.id)).Nodup :=
      List.Nodup.sublist (List.Sublist.map _ (List.filter_sublist _)) hnd
    rw [List.Nodup, List.pairwise_map] at h1
    exact h1
  refine (hone.and hids).imp ?_
  intro a b hab
  obtain ⟨hdisj, hne⟩ := hab
  intro q hq hq'
  rw [mem_assignG_players] at hq hq'
  rcases hq with ⟨hqa, hqp⟩ | ⟨ha, rfl⟩
  · rcases hq' with ⟨hqb, -⟩ | ⟨-, rfl⟩
    · exact hdisj q hqa hqb
    · exact hqp rfl
  · rcases hq' with ⟨-, hqp⟩ | ⟨hb, -⟩
    · exact hqp rfl
    · exact hne ((eq_of_beq ha).trans (eq_of_beq hb).symm)

theorem append_fresh_nodupIds (st : EState) (bid : String) (hnd : NodupIds st) :
    NodupIds { st with games := st.games ++ [newSkillGame st.games bid] } := by
  unfold NodupIds
  rw [List.map_append, List.nodup_append]
  refine ⟨hnd, List.nodup_singleton _, ?_⟩
  intro x hx hx'
  have hxf : x = freshId st.games := by simpa [newSkillGame] using hx'
  rw [hxf] at hx
  exact freshId_not_mem_map st.games hx

theorem append_fresh_atMostOne (st : EState) (bid : String)
    (hone : AtMostOneActive st) :
    AtMostOneActive { st with games := st.games ++ [newSkillGame st.games bid] } := by
  unfold AtMostOneActive at hone ⊢
  show ((st.games ++ [newSkillGame st.games bid]).filter (fun g => !g.hasEnded)).Pairwise _
  rw [List.filter_append]
  have hnew : ([newSkillGame st.games bid].filter (fun g => !g.hasEnded)) =
      [newSkillGame st.games bid] := rfl
  rw [hnew, List.pairwise_append]
  refine ⟨hone, List.pairwise_singleton _ _, ?_⟩
  intro a ha b hb
  have hb' : b = newSkillGame st.games bid := List.mem_singleton.mp hb
  subst hb'
  intro q hq hq'
  have hnil : (newSkillGame st.games bid).players = [] := rfl
  rw [hnil] at hq'
  exact absurd hq' (List.not_mem_nil q)

theorem assignBracket_atMostOne (gid : String) :
    ∀ (b : List Player) (st : EState), NodupIds st → AtMostOneActive st →
      AtMostOneActive (assignBracket st gid b) := by
  intro b
  induction b with
  | nil => intro st _ h; exact h
  | cons p rest ih =>
    intro st hnd hone
    unfold assignBracket
    exact ih _ (nodupIds_of_ids_eq (assignPlayer_gameIds st gid p.id) hnd)
      (assignPlayer_atMostOne st gid p.id hnd hone)

theorem processBrackets_atMostOne (bid : String) :
    ∀ (bl : List (List Player)) (st : EState), NodupIds st → AtMostOneActive st →
      AtMostOneActive (processBrackets st bid bl) := by
  intro bl
  induction bl with
  | nil => intro st _ h; exact h
  | cons b bs ih =>
    intro st hnd hone
    unfold processBrackets
    split
    · exact ih st hnd hone
    · have hnd1 := append_fresh_nodupIds st bid hnd
      have hone1 := append_fresh_atMostOne st bid hone
      exact ih _ (nodupIds_of_ids_eq (assignBracket_gameIds _ b _) hnd1)
        (assignBracket_atMostOne _ b _ hnd1 hone1)

theorem step_atMostOne {st st' : EState} (h : Step st st')
    (hnd : NodupIds st) (hone : AtMostOneActive st) : AtMostOneActive st' := by
  cases h with
  | seqFill pid =>
    rcases strategy1_games_cases st pid with hc | ⟨g, -, -, -, hc⟩
    · exact atMostOne_congr hc hone
    · exact atMostOne_congr hc (assignPlayer_atMostOne st g.id pid hnd hone)
  | randBal pid r =>
    rcases strategy2_games_cases st pid r with hc | ⟨g, -, -, -, hc⟩
    · exact atMostOne_congr hc hone
    · exact atMostOne_congr hc (assignPlayer_atMostOne st g.id pid hnd hone)
  | attrMatch pid =>
    rcases strategy3_games_cases st pid with hc | ⟨g, -, -, -, hc⟩
    · exact atMostOne_congr hc hone
    · exact atMostOne_congr hc (assignPlayer_atMostOne st g.id pid hnd hone)
  | condPool pid =>
    rcases strategy4_games_cases st pid with hc | ⟨g, -, -, -, hc⟩
    · exact atMostOne_congr hc hone
    · exact atMostOne_congr hc (assignPlayer_atMostOne st g.id pid hnd hone)
  | replay pid =>
    rcases replayHandler_games_cases st pid with hc | ⟨g, -, -, -, hc⟩
    · exact atMostOne_congr hc hone
    · exact atMostOne_congr hc (assignPlayer_atMostOne st g.id pid hnd hone)
  | skill pid =>
    rcases skillHandler_cases st pid with hc | ⟨bid, hc⟩
    · exact atMostOne_congr (by rw [hc]) hone
    · rw [hc]
      exact processBrackets_atMostOne bid _ st hnd hone

end AtMostOneLemmas

section ClaimC2

/-- C2: every handler short-circuits (state unchanged) when the participant
already has a non-null `gameID`; `assignPlayer` removes the participant from
every other game before adding it, so afterwards the participant is a member
only of the target game; and under any sequence of handler invocations the
member lists of the non-ended games stay pairwise disjoint — a participant
is in at most one non-ended game. -/
theorem at_most_one_active_assignment (st st' : EState) (pid gid : String) (r : Nat)
    (hnd : NodupIds st) (hone : AtMostOneActive st)
    (h : Relation.ReflTransGen Step st st') :
    (∀ p, findPlayer st pid = some p → p.gameID.isSome = true →
      strategy1 st pid = st ∧ strategy2 st pid r = st ∧ strategy3 st pid = st ∧
      strategy4 st pid = st ∧ skillHandler st pid = st) ∧
    (∀ g' ∈ (assignPlayer st gid pid).games, pid ∈ g'.players → g'.id = gid) ∧
    AtMostOneActive st' := by
  refine ⟨?_, ?_, ?_⟩
  · intro p hp hiso
    refine ⟨?_, ?_, ?_, ?_, ?_⟩
    · rw [strategy1_char st pid p hp, select1_assigned p st.games hiso]
    · rw [strategy2_char st pid r p hp, select2_assigned p st.games r hiso]
    · rw [strategy3_char st pid p hp, select3_assigned p st.games hiso]
    · unfold strategy4
      rw [hp]
      simp [hiso]
    · unfold skillHandler
      rw [hp]
      simp [hiso]
  · intro g' hg' hmem
    rw [assignPlayer_games] at hg'
    obtain ⟨g, hg, rfl⟩ := List.mem_map.mp hg'
    rw [mem_assignG_players] at hmem
    rcases hmem with ⟨-, hne⟩ | ⟨hb, -⟩
    · exact absurd rfl hne
    · rw [assignG_id]
      exact eq_of_beq hb
  · induction h with
    | refl => exact hone
    | tail hab hbc ih => exact step_atMostOne hbc (rtg_nodupIds hab hnd) ih

/-- Witness for `at_most_one_active_assignment`: one Sequential Fill step
from `c2WSt` keeps the non-ended member lists pairwise disjoint. -/
theorem at_most_one_active_assignment_witness :
    AtMostOneActive (strategy1 c2WSt "p") :=
  (at_most_one_active_assignment c2WSt (strategy1 c2WSt "p") "p" "g1" 0
    (by decide) (by decide)
    (Relation.ReflTransGen.single (Step.seqFill c2WSt "p"))).2.2

end ClaimC2

section ClaimC4

theorem underassignedOf_char (gs : List Game) (g : Game) :
    g ∈ underassignedOf gs ↔
      (g ∈ gs ∧ openPred g = true ∧
        ∀ g' ∈ gs, openPred g' = true → g.players.length ≤ g'.players.length) := by
  unfold underassignedOf
  rw [List.mem_filter, List.mem_filter]
  constructor
  · rintro ⟨⟨hmem, hopen⟩, hmin⟩
    have hminval : g.players.length =
        minOcc ((gs.filter openPred).map (fun h => h.players.length)) := by
      simpa using hmin
    refine ⟨hmem, hopen, ?_⟩
    intro g' hg' ho'
    rw [hminval]
    exact minOcc_le _ _
      (List.mem_map.mpr ⟨g', List.mem_filter.mpr ⟨hg', ho'⟩, rfl⟩)
  · rintro ⟨hmem, hopen, hmin⟩
    have hgf : g ∈ gs.filter openPred := List.mem_filter.mpr ⟨hmem, hopen⟩
    refine ⟨⟨hmem, hopen⟩, ?_⟩
    have h1 : minOcc ((gs.filter openPred).map (fun h => h.players.length)) ≤
        g.players.length :=
      minOcc_le _ _ (List.mem_map.mpr ⟨g, hgf, rfl⟩)
    have h2 : g.players.length ≤
        minOcc ((gs.filter openPred).map (fun h => h.players.length)) := by
      have hne : (gs.filter openPred).map (fun h => h.players.length) ≠ [] := by
        intro hcon
        have : g.players.length ∈
            (gs.filter openPred).map (fun h => h.players.length) :=
          List.mem_map.mpr ⟨g, hgf, rfl⟩
        rw [hcon] at this
        cases this
      obtain ⟨g0, hg0, hg0len⟩ :=
        List.mem_map.mp (minOcc_mem _ hne)
      have hg0' := List.mem_filter.mp hg0
      rw [← hg0len]
      exact hmin g0 hg0'.1 hg0'.2
    simp [Nat.le_antisymm h2 h1]

theorem filter_ne_self {pid : String} {l : List String} (h : pid ∉ l) :
    l.filter (fun q => !(q == pid)) = l := by
  apply List.filter_eq_self.mpr
  intro q hq
  simp only [Bool.not_eq_true', beq_eq_false_iff_ne, ne_eq]
  intro heq
  exact h (heq ▸ hq)

@[simp]
theorem assignG_open (gid pid : String) (g : Game) :
    openPred (assignG gid pid g) = openPred g := by
  unfold openPred
  rw [assignG_hasEnded, assignG_hasStarted]

theorem strategy2_candidates_reachable (st : EState) (pid : String) (p : Player)
    (hp : findPlayer st pid = some p) (hg : p.gameID = none) :
    ∀ g ∈ underassignedOf st.games, ∃ r, strategy2 st pid r = assignPlayer st g.id pid := by
  intro g hgmem
  obtain ⟨n, hget⟩ := List.get_of_mem hgmem
  refine ⟨n.val, ?_⟩
  rw [strategy2_char st pid n.val p hp]
  have hsome : p.gameID.isSome = false := by rw [hg]; rfl
  have hsel : select2 p st.games n.val = some g.id := by
    unfold select2
    rw [if_neg (by simp [hsome])]
    rw [Nat.mod_eq_of_lt n.isLt]
    rw [List.getElem?_eq_getElem n.isLt]
    rw [← hget]
    rfl
  rw [hsel]

theorem randStep_invariants {st st' : EState} (h : RandStep st st')
    (hnd : NodupIds st) (hcons : AttrConsistent st) (hbal : BalancedOcc st) :
    NodupIds st' ∧ AttrConsistent st' ∧ BalancedOcc st' := by
  cases h with
  | mk pid r =>
    cases hp : findPlayer st pid with
    | none =>
      have hres : strategy2 st pid r = st := by unfold strategy2; rw [hp]
      rw [hres]
      exact ⟨hnd, hcons, hbal⟩
    | some p =>
      cases hsel : select2 p st.games r with
      | none =>
        have hres : strategy2 st pid r = st := by
          rw [strategy2_char st pid r p hp, hsel]
        rw [hres]
        exact ⟨hnd, hcons, hbal⟩
      | some gid =>
        obtain ⟨g, hua, hgmem, hopen, hid⟩ := select2_some_spec p st.games r gid hsel
        subst hid
        have hres : strategy2 st pid r = assignPlayer st g.id pid := by
          rw [strategy2_char st pid r p hp, hsel]
        have hpnone : p.gameID = none := by
          cases hgid : p.gameID with
          | none => rfl
          | some v =>
            have : select2 p st.games r = none :=
              select2_assigned p st.games r (by rw [hgid]; rfl)
            rw [this] at hsel
            cases hsel
        have hnomem : ∀ g' ∈ st.games, pid ∉ g'.players := by
          intro g' hg'
          have := hcons p (findPlayer_mem st pid p hp) hpnone g' hg'
          rwa [findPlayer_id st pid p hp] at this
        have hmin := ((underassignedOf_char st.games g).mp hua).2.2
        rw [hres]
        refine ⟨nodupIds_of_ids_eq (assignPlayer_gameIds st g.id pid) hnd, ?_, ?_⟩
        · intro q' hq' hqnone g' hg' hqmem
          have hq'' : q' ∈ st.players.map
              (fun q => if q.id == pid then { q with gameID := some g.id } else q) := hq'
          obtain ⟨q, hq, rfl⟩ := List.mem_map.mp hq''
          rw [assignPlayer_games] at hg'
          obtain ⟨g0, hg0, rfl⟩ := List.mem_map.mp hg'
          by_cases hqp : (q.id == pid) = true
          · rw [if_pos hqp] at hqnone
            exact Option.noConfusion hqnone
          · rw [if_neg hqp] at hqnone hqmem
            rw [mem_assignG_players] at hqmem
            rcases hqmem with ⟨hqin, -⟩ | ⟨-, hqe⟩
            · exact hcons q hq hqnone g0 hg0 hqin
            · exact hqp (by simp [hqe])
        · intro g1' hg1' g2' hg2' ho1 ho2
          rw [assignPlayer_games] at hg1' hg2'
          obtain ⟨g1, hg1, rfl⟩ := List.mem_map.mp hg1'
          obtain ⟨g2, hg2, rfl⟩ := List.mem_map.mp hg2'
          rw [assignG_open] at ho1 ho2
          have hlen : ∀ g0, g0 ∈ st.games → ∀ hne : (g0.id == g.id) = false,
              (assignG g.id pid g0).players.length = g0.players.length := by
            intro g0 hg0 hne
            rw [assignG_players_of_ne hne, filter_ne_self (hnomem g0 hg0)]
          have hlent : ∀ g0, g0 ∈ st.games → (g0.id == g.id) = true →
              (assignG g.id pid g0).players.length = g.players.length + 1 := by
            intro g0 hg0 heq
            have : g0 = g := List.inj_on_of_nodup_map hnd hg0 hgmem (eq_of_beq heq)
            subst this
            rw [assignG_players_of_eq heq, List.length_append,
              filter_ne_self (hnomem g0 hg0)]
            rfl
          by_cases h1 : (g1.id == g.id) = true
          · by_cases h2 : (g2.id == g.id) = true
            · rw [hlent g1 hg1 h1, hlent g2 hg2 h2]
              omega
            · rw [hlent g1 hg1 h1, hlen g2 hg2 (by revert h2; cases (g2.id == g.id) <;> simp)]
              have := hmin g2 hg2 ho2
              omega
          · by_cases h2 : (g2.id == g.id) = true
            · rw [hlen g1 hg1 (by revert h1; cases (g1.id == g.id) <;> simp),
                hlent g2 hg2 h2]
              have hopg : openPred g = true := hopen
              have := hbal g1 hg1 g hgmem ho1 hopg
              omega
            · rw [hlen g1 hg1 (by revert h1; cases (g1.id == g.id) <;> simp),
                hlen g2 hg2 (by revert h2; cases (g2.id == g.id) <;> simp)]
              exact hbal g1 hg1 g2 hg2 ho1 ho2

theorem rtg_rand_invariants {st st' : EState}
    (h : Relation.ReflTransGen RandStep st st')
    (hnd : NodupIds st) (hcons : AttrConsistent st) (hbal : BalancedOcc st) :
    NodupIds st' ∧ AttrConsistent st' ∧ BalancedOcc st' := by
  induction h with
  | refl => exact ⟨hnd, hcons, hbal⟩
  | tail hab hbc ih => exact randStep_invariants hbc ih.1 ih.2.1 ih.2.2

/-- C4: Strategy 2 restricts its candidates to exactly the open games of
minimum occupancy; every such candidate is chosen under some random draw (so
the tie-break is by the draw, not by ordering); and across any sequence of
Strategy 2 arrivals the occupancies of the open games stay within one of
each other (max − min ≤ 1). -/
theorem load_balanced_random (st st' : EState) (pid : String) (p : Player)
    (hp : findPlayer st pid = some p) (hg : p.gameID = none)
    (hnd : NodupIds st) (hcons : AttrConsistent st) (hbal : BalancedOcc st)
    (h : Relation.ReflTransGen RandStep st st') :
    (∀ (gs : List Game) (g : Game), g ∈ underassignedOf gs ↔
      (g ∈ gs ∧ openPred g = true ∧
        ∀ g' ∈ gs, openPred g' = true → g.players.length ≤ g'.players.length)) ∧
    (∀ g ∈ underassignedOf st.games, ∃ r, strategy2 st pid r = assignPlayer st g.id pid) ∧
    BalancedOcc st' :=
  ⟨underassignedOf_char,
   strategy2_candidates_reachable st pid p hp hg,
   (rtg_rand_invariants h hnd hcons hbal).2.2⟩

/-- Witness for `load_balanced_random`: one Strategy 2 arrival in `c4WSt`
keeps the two capacity-2 games within one member of each other. -/
theorem load_balanced_random_witness :
    BalancedOcc (strategy2 c4WSt "p" 0) :=
  (load_balanced_random c4WSt (strategy2 c4WSt "p" 0) "p" { id := "p" }
    (by decide) rfl (by decide) (by decide) (by decide)
    (Relation.ReflTransGen.single (RandStep.mk c4WSt "p" 0))).2.2

end ClaimC4

section RatingSortLemmas

theorem insertByRating_perm (p : Player) :
    ∀ l : List Player, (insertByRating p l).Perm (p :: l) := by
  intro l
  induction l with
  | nil => exact List.Perm.refl _
  | cons h t ih =>
    unfold insertByRating
    split
    · exact List.Perm.refl _
    · exact (List.Perm.cons h ih).trans (List.Perm.swap p h t)

theorem sortByRating_perm (l : List Player) : (sortByRating l).Perm l := by
  induction l with
  | nil => exact List.Perm.refl _
  | cons p t ih =>
    have hstep : sortByRating (p :: t) = insertByRating p (sortByRating t) := rfl
    rw [hstep]
    exact (insertByRating_perm p (sortByRating t)).trans (List.Perm.cons p ih)

theorem mem_sortByRating {q : Player} {l : List Player} :
    q ∈ sortByRating l ↔ q ∈ l :=
  (sortByRating_perm l).mem_iff

theorem insertByRating_pairwise (p : Player) :
    ∀ l : List Player, l.Pairwise (fun a b => ratingOf a ≤ ratingOf b) →
      (insertByRating p l).Pairwise (fun a b => ratingOf a ≤ ratingOf b) := by
  intro l
  induction l with
  | nil => intro _; simp [insertByRating]
  | cons h t ih =>
    intro hp
    rw [List.pairwise_cons] at hp
    unfold insertByRating
    split
    · rename_i hle
      rw [List.pairwise_cons]
      refine ⟨?_, List.pairwise_cons.mpr hp⟩
      intro x hx
      rcases List.mem_cons.mp hx with rfl | hx'
      · exact hle
      · exact le_trans hle (hp.1 x hx')
    · rename_i hgt
      rw [List.pairwise_cons]
      refine ⟨?_, ih hp.2⟩
      intro x hx
      have hx' : x ∈ p :: t := (insertByRating_perm p t).mem_iff.mp hx
      rcases List.mem_cons.mp hx' with rfl | hx''
      · exact le_of_not_le hgt
      · exact hp.1 x hx''

theorem sortByRating_pairwise (l : List Player) :
    (sortByRating l).Pairwise (fun a b => ratingOf a ≤ ratingOf b) := by
  induction l with
  | nil => exact List.Pairwise.nil
  | cons p t ih => exact insertByRating_pairwise p (sortByRating t) ih

theorem brackets_flatten : ∀ l : List Player, (brackets l).flatten = l
  | [] => rfl
  | [a] => by simp [brackets]
  | [a, b] => by simp [brackets]
  | [a, b, c] => by simp [brackets]
  | a :: b :: c :: d :: rest => by
    show ([a, b, c, d] :: brackets rest).flatten = _
    rw [List.flatten_cons, brackets_flatten rest]
    rfl

end RatingSortLemmas

section AssignBracketLemmas

theorem findPlayer_of_mem (st : EState) (q : Player) (hnd : NodupPids st)
    (hq : q ∈ st.players) : findPlayer st q.id = some q := by
  have hs : (st.players.find? (fun p => p.id == q.id)).isSome :=
    List.find?_isSome.mpr ⟨q, hq, by simp⟩
  obtain ⟨q0, hq0⟩ := Option.isSome_iff_exists.mp hs
  have hmem := List.mem_of_find?_eq_some hq0
  have hid' := List.find?_some hq0
  have hid : q0.id = q.id := eq_of_beq hid'
  have hqq : q0 = q := List.inj_on_of_nodup_map hnd hmem hq hid
  show st.players.find? (fun p => p.id == q.id) = some q
  rw [hq0, hqq]

theorem assignG_eq_self {gid pid : String} {g : Game} (hne : g.id ≠ gid)
    (hmem : pid ∉ g.players) : assignG gid pid g = g := by
  unfold assignG
  rw [if_neg (by simp [hne]), filter_ne_self hmem]

theorem assignG_target {gid pid : String} {g : Game} (heq : (g.id == gid) = true)
    (hmem : pid ∉ g.players) :
    assignG gid pid g = { g with players := g.players ++ [pid] } := by
  unfold assignG
  rw [if_pos heq, filter_ne_self hmem]

theorem findPlayer_assignBracket_ne (gid : String) :
    ∀ (b : List Player) (st : EState) (qid : String),
      (∀ q ∈ b, q.id ≠ qid) →
      findPlayer (assignBracket st gid b) qid = findPlayer st qid := by
  intro b
  induction b with
  | nil => intro st qid _; rfl
  | cons p rest ih =>
    intro st qid h
    unfold assignBracket
    rw [ih _ qid (fun q hq => h q (List.mem_cons_of_mem p hq))]
    exact findPlayer_assignPlayer_ne st gid p.id qid
      (Ne.symm (h p (List.mem_cons_self p rest)))

theorem findPlayer_assignBracket_self (gid : String) :
    ∀ (b : List Player) (st : EState) (q : Player),
      ((b.map (fun q => q.id)).Nodup) → q ∈ b →
      findPlayer st q.id = some q →
      findPlayer (assignBracket st gid b) q.id =
        some { q with gameID := some gid } := by
  intro b
  induction b with
  | nil => intro st q _ hq; cases hq
  | cons p rest ih =>
    intro st q hnd hq hfind
    rw [List.map_cons, List.nodup_cons] at hnd
    unfold assignBracket
    rcases List.mem_cons.mp hq with rfl | hq'
    · rw [findPlayer_assignBracket_ne gid rest _ q.id ?_]
      · exact findPlayer_assignPlayer_self st gid q.id q hfind
      · intro q' hq'' heq
        exact hnd.1 (heq ▸ List.mem_map.mpr ⟨q', hq'', rfl⟩)
    · have hne : q.id ≠ p.id := by
        intro heq
        exact hnd.1 (heq ▸ List.mem_map.mpr ⟨q, hq', rfl⟩)
      apply ih _ q hnd.2 hq'
      rw [findPlayer_assignPlayer_ne st gid p.id q.id hne]
      exact hfind

theorem assignBracket_games_append (gid : String) :
    ∀ (b : List Player) (st : EState) (l : List Game) (tg : Game),
      st.games = l ++ [tg] → tg.id = gid →
      (∀ g ∈ l, g.id ≠ gid) →
      (∀ q ∈ b, ∀ g ∈ st.games, q.id ∉ g.players) →
      ((b.map (fun q => q.id)).Nodup) →
      (assignBracket st gid b).games =
        l ++ [{ tg with players := tg.players ++ b.map (fun q => q.id) }] := by
  intro b
  induction b with
  | nil =>
    intro st l tg hst htg hl hq hnd
    show st.games = _
    rw [hst, List.map_nil, List.append_nil]
  | cons p rest ih =>
    intro st l tg hst htg hl hq hnd
    rw [List.map_cons, List.nodup_cons] at hnd
    have hpid_tg : p.id ∉ tg.players :=
      hq p (List.mem_cons_self p rest) tg (by rw [hst]; exact List.mem_append_right l (List.mem_singleton.mpr rfl))
    have hst' : (assignPlayer st gid p.id).games =
        l ++ [{ tg with players := tg.players ++ [p.id] }] := by
      rw [assignPlayer_games, hst, List.map_append]
      congr 1
      · rw [List.map_congr_left, List.map_id]
        intro g hg
        exact assignG_eq_self (hl g hg)
          (hq p (List.mem_cons_self p rest) g (by rw [hst]; exact List.mem_append_left _ hg))
      · rw [List.map_singleton, assignG_target (beq_iff_eq.mpr htg) hpid_tg]
    unfold assignBracket
    rw [ih (assignPlayer st gid p.id) l { tg with players := tg.players ++ [p.id] }
      hst' htg hl ?_ hnd.2]
    · rw [List.map_cons]
      have hassoc : (tg.players ++ [p.id]) ++ rest.map (fun q => q.id) =
          tg.players ++ (p.id :: rest.map (fun q => q.id)) := by
        rw [List.append_assoc]
        rfl
      show l ++ [{ tg with players := (tg.players ++ [p.id]) ++ rest.map (fun q => q.id) }] = _
      rw [hassoc]
    · intro q hqrest g hg
      rw [hst'] at hg
      rcases List.mem_append.mp hg with hgl | hgr
      · exact hq q (List.mem_cons_of_mem p hqrest) g (by rw [hst]; exact List.mem_append_left _ hgl)
      · have hgeq : g = { tg with players := tg.players ++ [p.id] } := List.mem_singleton.mp hgr
        subst hgeq
        show q.id ∉ tg.players ++ [p.id]
        rw [List.mem_append, List.mem_singleton]
        rintro (hin | heq)
        · exact hq q (List.mem_cons_of_mem p hqrest) tg
            (by rw [hst]; exact List.mem_append_right l (List.mem_singleton.mpr rfl)) hin
        · exact hnd.1 (heq ▸ List.mem_map.mpr ⟨q, hqrest, rfl⟩)

end AssignBracketLemmas

section ProcessBracketsSpec

theorem processBrackets_spec (bid : String) :
    ∀ (bl : List (List Player)) (st0 : EState),
      ((bl.flatten.map (fun q => q.id)).Nodup) →
      (∀ q ∈ bl.flatten, ∀ g ∈ st0.games, q.id ∉ g.players) →
      (∀ q ∈ bl.flatten, findPlayer st0 q.id = some q) →
      ∃ gs, (processBrackets st0 bid bl).games = st0.games ++ gs ∧
        List.Forall₂ (fun (b : List Player) (g : Game) =>
            g.players = b.map (fun q => q.id) ∧
            g.treatment = { playerCount := requiredPlayers } ∧
            g.hasEnded = false ∧ g.hasStarted = false ∧ g.batchID = bid ∧
            ∀ q ∈ b, findPlayer (processBrackets st0 bid bl) q.id =
              some { q with gameID := some g.id })
          (bl.filter (fun b => requiredPlayers ≤ b.length)) gs ∧
        (∀ qid : String,
          (∀ b ∈ bl, requiredPlayers ≤ b.length → ∀ q ∈ b, q.id ≠ qid) →
          findPlayer (processBrackets st0 bid bl) qid = findPlayer st0 qid) := by
  intro bl
  induction bl with
  | nil =>
    intro st0 _ _ _
    refine ⟨[], by rw [List.append_nil]; rfl, List.Forall₂.nil, ?_⟩
    intro qid _
    rfl
  | cons b bs ih =>
    intro st0 hnd hmem hfind
    rw [List.flatten_cons, List.map_append, List.nodup_append] at hnd
    obtain ⟨hndb, hndbs, hdisj⟩ := hnd
    have hmemb : ∀ q ∈ b, ∀ g ∈ st0.games, q.id ∉ g.players := by
      intro q hq
      exact hmem q (by rw [List.flatten_cons]; exact List.mem_append_left _ hq)
    have hmembs : ∀ q ∈ bs.flatten, ∀ g ∈ st0.games, q.id ∉ g.players := by
      intro q hq
      exact hmem q (by rw [List.flatten_cons]; exact List.mem_append_right _ hq)
    have hfindb : ∀ q ∈ b, findPlayer st0 q.id = some q := by
      intro q hq
      exact hfind q (by rw [List.flatten_cons]; exact List.mem_append_left _ hq)
    have hfindbs : ∀ q ∈ bs.flatten, findPlayer st0 q.id = some q := by
      intro q hq
      exact hfind q (by rw [List.flatten_cons]; exact List.mem_append_right _ hq)
    by_cases hlen : b.length < requiredPlayers
    · have hres : processBrackets st0 bid (b :: bs) = processBrackets st0 bid bs := by
        rw [processBrackets.eq_2, if_pos hlen]
      have hdec : decide (requiredPlayers ≤ b.length) = false :=
        decide_eq_false (Nat.not_le.mpr hlen)
      have hfilter : (b :: bs).filter (fun b => requiredPlayers ≤ b.length) =
          bs.filter (fun b => requiredPlayers ≤ b.length) := by
        simp [List.filter_cons, hdec]
      obtain ⟨gs, h1, h2, h3⟩ := ih st0 hndbs hmembs hfindbs
      refine ⟨gs, by rw [hres]; exact h1, ?_, ?_⟩
      · rw [hfilter, hres]
        exact h2
      · intro qid hq
        rw [hres]
        exact h3 qid (fun b' hb' hl' => hq b' (List.mem_cons_of_mem b hb') hl')
    · have hres : processBrackets st0 bid (b :: bs) =
          processBrackets
            (assignBracket
              { st0 with games := st0.games ++ [newSkillGame st0.games bid] }
              (newSkillGame st0.games bid).id b)
            bid bs := by
        rw [processBrackets.eq_2, if_neg hlen]
      have hstep_games :
          (assignBracket
            { st0 with games := st0.games ++ [newSkillGame st0.games bid] }
            (newSkillGame st0.games bid).id b).games =
          st0.games ++ [{ newSkillGame st0.games bid with
                          players := b.map (fun q => q.id) }] := by
        have hkey := assignBracket_games_append (newSkillGame st0.games bid).id b
          { st0 with games := st0.games ++ [newSkillGame st0.games bid] }
          st0.games (newSkillGame st0.games bid) rfl rfl
          (freshId_not_mem st0.games)
          ?_ hndb
        · rw [hkey]
          rfl
        · intro q hq g hg
          rcases List.mem_append.mp hg with hgl | hgr
          · exact hmemb q hq g hgl
          · rw [List.mem_singleton.mp hgr]
            intro hcon
            exact absurd hcon (List.not_mem_nil q.id)
      have hfind1 : ∀ q ∈ b,
          findPlayer { st0 with games := st0.games ++ [newSkillGame st0.games bid] }
            q.id = some q := by
        intro q hq
        exact hfindb q hq
      have hfind2 : ∀ q ∈ b,
          findPlayer
            (assignBracket
              { st0 with games := st0.games ++ [newSkillGame st0.games bid] }
              (newSkillGame st0.games bid).id b) q.id =
            some { q with gameID := some (newSkillGame st0.games bid).id } := by
        intro q hq
        exact findPlayer_assignBracket_self _ b _ q hndb hq (hfind1 q hq)
      have hdisj' : ∀ q ∈ b, ∀ q' ∈ bs.flatten, q'.id ≠ q.id := by
        intro q hq q' hq' heq
        exact hdisj (List.mem_map.mpr ⟨q, hq, rfl⟩)
          (heq ▸ List.mem_map.mpr ⟨q', hq', rfl⟩)
      have hmem' : ∀ q ∈ bs.flatten,
          ∀ g ∈ (assignBracket
              { st0 with games := st0.games ++ [newSkillGame st0.games bid] }
              (newSkillGame st0.games bid).id b).games, q.id ∉ g.players := by
        intro q hq g hg
        rw [hstep_games] at hg
        rcases List.mem_append.mp hg with hgl | hgr
        · exact hmembs q hq g hgl
        · rw [List.mem_singleton.mp hgr]
          show q.id ∉ b.map (fun q => q.id)
          intro hcon
          exact hdisj hcon (List.mem_map.mpr ⟨q, hq, rfl⟩)
      have hfind' : ∀ q ∈ bs.flatten,
          findPlayer
            (assignBracket
              { st0 with games := st0.games ++ [newSkillGame st0.games bid] }
              (newSkillGame st0.games bid).id b) q.id = some q := by
        intro q hq
        rw [findPlayer_assignBracket_ne _ b _ q.id
          (fun q' hq' => by
            intro heq
            exact hdisj (heq ▸ List.mem_map.mpr ⟨q', hq', rfl⟩)
              (List.mem_map.mpr ⟨q, hq, rfl⟩))]
        exact hfindbs q hq
      obtain ⟨gs', h1', h2', h3'⟩ := ih _ hndbs hmem' hfind'
      have hdec : decide (requiredPlayers ≤ b.length) = true :=
        decide_eq_true (Nat.le_of_not_lt hlen)
      have hfilter : (b :: bs).filter (fun b => requiredPlayers ≤ b.length) =
          b :: bs.filter (fun b => requiredPlayers ≤ b.length) := by
        simp [List.filter_cons, hdec]
      refine ⟨{ newSkillGame st0.games bid with players := b.map (fun q => q.id) } :: gs',
        ?_, ?_, ?_⟩
      · rw [hres, h1', hstep_games, List.append_assoc]
        rfl
      · rw [hfilter, hres]
        refine List.Forall₂.cons ⟨rfl, rfl, rfl, rfl, rfl, ?_⟩ h2'
        intro q hq
        rw [h3' q.id (fun b' hb' hl' q' hq' => hdisj' q hq q' (List.mem_flatten.mpr ⟨b', hb', hq'⟩))]
        exact hfind2 q hq
      · intro qid hq
        rw [hres, h3' qid (fun b' hb' hl' q' hq' =>
          hq b' (List.mem_cons_of_mem b hb') hl' q' hq')]
        rw [findPlayer_assignBracket_ne _ b _ qid
          (fun q' hq' => hq b (List.mem_cons_self b bs) (Nat.le_of_not_lt hlen) q' hq')]
        rfl

end ProcessBracketsSpec

section ClaimC6

theorem skillHandler_run (st : EState) (pid : String) (p : Player) (rv : Int)
    (batch : Batch) (brest : List Batch)
    (hp : findPlayer st pid = some p) (hgid : p.gameID = none)
    (hr : p.skillRating = some rv) (hrv : (rv == 0) = false)
    (hlen : ¬ (sortByRating (st.players.filter poolPred)).length < requiredPlayers)
    (hbatch : st.batches.filter (fun b => b.status == "running") = batch :: brest) :
    skillHandler st pid =
      processBrackets st batch.id
        (brackets (sortByRating (st.players.filter poolPred))) := by
  have hiso : p.gameID.isSome = false := by rw [hgid]; rfl
  unfold skillHandler
  rw [hp]
  simp [hiso, hr, hrv, hlen, hbatch]

/-- C6: the matchmaking handler sorts the unassigned rated participants by
rating and partitions them into brackets of `requiredPlayers`; when a
running batch exists and at least `requiredPlayers` participants are pooled,
it creates exactly one new game per complete bracket — each new game holds
exactly the ids of its bracket, all bracket members point to it — and every
pooled participant belonging to no complete bracket is left untouched
(still unassigned); with fewer than `requiredPlayers` pooled participants
the handler changes nothing. -/
theorem bracketed_group_matching (st : EState) (pid : String) (p : Player)
    (rv : Int) (batch : Batch) (brest : List Batch)
    (hp : findPlayer st pid = some p) (hgid : p.gameID = none)
    (hr : p.skillRating = some rv) (hrv : (rv == 0) = false)
    (hndp : NodupPids st) (hcons : AttrConsistent st)
    (hbatch : st.batches.filter (fun b => b.status == "running") = batch :: brest) :
    (sortByRating (st.players.filter poolPred)).Pairwise
      (fun a b => ratingOf a ≤ ratingOf b) ∧
    (sortByRating (st.players.filter poolPred)).Perm (st.players.filter poolPred) ∧
    ((sortByRating (st.players.filter poolPred)).length < requiredPlayers →
      skillHandler st pid = st) ∧
    (¬ (sortByRating (st.players.filter poolPred)).length < requiredPlayers →
      ∃ gs, (skillHandler st pid).games = st.games ++ gs ∧
        List.Forall₂ (fun (b : List Player) (g : Game) =>
            g.players = b.map (fun q => q.id) ∧
            g.treatment = { playerCount := requiredPlayers } ∧
            g.hasEnded = false ∧ g.hasStarted = false ∧ g.batchID = batch.id ∧
            ∀ q ∈ b, findPlayer (skillHandler st pid) q.id =
              some { q with gameID := some g.id })
          ((brackets (sortByRating (st.players.filter poolPred))).filter
            (fun b => requiredPlayers ≤ b.length)) gs ∧
        (∀ q ∈ sortByRating (st.players.filter poolPred),
          (∀ b ∈ brackets (sortByRating (st.players.filter poolPred)),
            requiredPlayers ≤ b.length → q ∉ b) →
          findPlayer (skillHandler st pid) q.id = some q ∧ q.gameID = none)) := by
  have hpoolsub : ∀ q, q ∈ sortByRating (st.players.filter poolPred) →
      q ∈ st.players.filter poolPred := fun q => mem_sortByRating.mp
  have hpoolnodup : ((sortByRating (st.players.filter poolPred)).map
      (fun q => q.id)).Nodup := by
    have h1 : ((st.players.filter poolPred).map (fun q => q.id)).Nodup :=
      List.Nodup.sublist (List.Sublist.map _ (List.filter_sublist _)) hndp
    have h2 := (sortByRating_perm (st.players.filter poolPred)).map (fun q => q.id)
    exact (List.Perm.nodup_iff h2).mpr h1
  have hqnone : ∀ q ∈ sortByRating (st.players.filter poolPred), q.gameID = none := by
    intro q hq
    have hpp := (List.mem_filter.mp (hpoolsub q hq)).2
    simp only [poolPred, Bool.and_eq_true] at hpp
    exact Option.isNone_iff_eq_none.mp hpp.1.1
  refine ⟨sortByRating_pairwise _, sortByRating_perm _, ?_, ?_⟩
  · intro hlen
    have hiso : p.gameID.isSome = false := by rw [hgid]; rfl
    unfold skillHandler
    rw [hp]
    simp [hiso, hr, hrv, hlen]
  · intro hlen
    rw [skillHandler_run st pid p rv batch brest hp hgid hr hrv hlen hbatch]
    have hflat : (brackets (sortByRating (st.players.filter poolPred))).flatten =
        sortByRating (st.players.filter poolPred) := brackets_flatten _
    obtain ⟨gs, h1, h2, h3⟩ := processBrackets_spec batch.id
      (brackets (sortByRating (st.players.filter poolPred))) st
      (by rw [hflat]; exact hpoolnodup)
      (by
        rw [hflat]
        intro q hq g hg
        exact hcons q (List.mem_of_mem_filter (hpoolsub q hq)) (hqnone q hq) g hg)
      (by
        rw [hflat]
        intro q hq
        exact findPlayer_of_mem st q hndp (List.mem_of_mem_filter (hpoolsub q hq)))
    refine ⟨gs, h1, h2, ?_⟩
    intro q hq hnotin
    rw [h3 q.id ?_]
    · exact ⟨findPlayer_of_mem st q hndp (List.mem_of_mem_filter (hpoolsub q hq)),
        hqnone q hq⟩
    · intro b hb hlb q' hq' heq
      have hq'pool : q' ∈ sortByRating (st.players.filter poolPred) := by
        rw [← hflat]
        exact List.mem_flatten.mpr ⟨b, hb, hq'⟩
      have hqq : q' = q := List.inj_on_of_nodup_map hpoolnodup hq'pool hq heq
      exact hnotin b hb hlb (hqq ▸ hq')

/-- Witness for `bracketed_group_matching`: in `c6WSt` the four lowest-rated
of five pooled players form a complete bracket and one new game; the fifth
stays deferred. -/
theorem bracketed_group_matching_witness :
    ∃ gs, (skillHandler c6WSt "p1").games = c6WSt.games ++ gs ∧
      List.Forall₂ (fun (b : List Player) (g : Game) =>
          g.players = b.map (fun q => q.id) ∧
          g.treatment = { playerCount := requiredPlayers } ∧
          g.hasEnded = false ∧ g.hasStarted = false ∧
          g.batchID = (Batch.mk "b1" "running").id ∧
          ∀ q ∈ b, findPlayer (skillHandler c6WSt "p1") q.id =
            some { q with gameID := some g.id })
        ((brackets (sortByRating (c6WSt.players.filter poolPred))).filter
          (fun b => requiredPlayers ≤ b.length)) gs ∧
      (∀ q ∈ sortByRating (c6WSt.players.filter poolPred),
        (∀ b ∈ brackets (sortByRating (c6WSt.players.filter poolPred)),
          requiredPlayers ≤ b.length → q ∉ b) →
        findPlayer (skillHandler c6WSt "p1") q.id = some q ∧ q.gameID = none) :=
  (bracketed_group_matching c6WSt "p1" { id := "p1", skillRating := some 5 } 5
    ⟨"b1", "running"⟩ [] (by decide) rfl rfl (by decide) (by decide) (by decide)
    (by decide)).2.2.2 (by decide)

end ClaimC6
